import Mathlib

/-!
# Shallow embedding of the ExchangeEmulator core (Go package `emul`)

This file embeds the execution engine of the repository — the `Exchange`
state machine of `src/exchange.go` together with the bar-replay driver
`Emulator` of the unnamed emulator source file — as pure Lean functions.

Monetary values (Go `float64`) are modelled as rationals `ℚ`, so all
arithmetic identities are exact; ticks and identifiers (Go `int64`) are
modelled as `ℤ`.  Go methods that mutate the receiver become functions
`Exchange → … → result × Exchange`; Go functions returning `(T, error)`
become `Except ExErr (T × Exchange)`, where the error case leaves the
state unchanged (in the Go source every error return happens before any
field mutation).  Go maps (`limitFailed`, `executedByID`) are modelled
as total functions with pointwise update.
-/

namespace Emul

/-- Side of an order: Go `OrderSide` with constants `SideBuy`/`SideSell`. -/
inductive OrderSide where
  | buy
  | sell
deriving DecidableEq

/-- Go constant `ReasonEntryLong`. -/
def ReasonEntryLong : String := "entry-long"

/-- Go constant `ReasonEntryShort`. -/
def ReasonEntryShort : String := "entry-short"

/-- Go constant `ReasonExit`. -/
def ReasonExit : String := "exit"

/-- Go constant `ReasonLiquidate`. -/
def ReasonLiquidate : String := "liquidation"

/-- One OHLC bar (Go `OHLCBar`). -/
structure OHLCBar where
  Open : ℚ
  High : ℚ
  Low : ℚ
  Close : ℚ
  Average : ℚ
deriving DecidableEq

instance : Inhabited OHLCBar := ⟨⟨0, 0, 0, 0, 0⟩⟩

/-- An executed-order history record (Go `Order`). -/
structure Order where
  ID : ℤ
  Symbol : String
  Side : OrderSide
  Qty : ℚ
  MidPrice : ℚ
  Price : ℚ
  Fee : ℚ
  ExecPnL : ℚ
  EquityBefore : ℚ
  Reason : String
  StopKind : String
  PositionAfter : ℚ
  USD : ℚ
  ShortCash : ℚ
  ShortMargin : ℚ
  Equity : ℚ
  EntryPrice : ℚ
  Tick : ℤ
  PlacedTick : ℤ
  SpreadPct : ℚ
  SlippagePct : ℚ
deriving DecidableEq

/-- Balance snapshot (Go `Balance`). -/
structure Balance where
  USD : ℚ
  Position : ℚ
  ShortCash : ℚ
  ShortMargin : ℚ
  Equity : ℚ
  EntryPrice : ℚ
  LastPrice : ℚ
deriving DecidableEq

/-- Kind of a queued limit order (Go `pendingKind`). -/
inductive pendingKind where
  | pendingOpenLong
  | pendingOpenShort
  | pendingClose
deriving DecidableEq

/-- A queued limit order (Go `pendingOrder`). -/
structure pendingOrder where
  id : ℤ
  kind : pendingKind
  price : ℚ
  fraction : ℚ
  reason : String
  stopKind : String
  placedAtTick : ℤ
  lastReason : String
  placedBar : OHLCBar
deriving DecidableEq

/-- Diagnostic record of a failed head evaluation (Go `LimitMiss`). -/
structure LimitMiss where
  Reason : String
  Kind : String
  LimitPrice : ℚ
  PlacedTick : ℤ
  CheckTick : ℤ
  PrevBar : OHLCBar
  CurrBar : OHLCBar
deriving DecidableEq

/-- The exchange state (Go `Exchange`).  `limitFailed` and `executedByID`
are Go maps, modelled as total functions. -/
structure Exchange where
  symbol : String
  fee : ℚ
  slippagePct : ℚ
  spreadPct : ℚ
  spreadManual : Bool
  prevPrice : ℚ
  usd : ℚ
  position : ℚ
  entryPrice : ℚ
  shortCash : ℚ
  shortMargin : ℚ
  lastPrice : ℚ
  tick : ℤ
  orders : List Order
  nextID : ℤ
  nextLimitID : ℤ
  pending : List pendingOrder
  executedByID : ℤ → Option Order
  limitFailed : String → ℕ
  misses : List LimitMiss
  lastBar : OHLCBar
  hasLastBar : Bool

/-- Typed error conditions (Go sentinel errors and inline `fmt.Errorf`s). -/
inductive ExErr where
  | symbolMismatch
  | priceNotSet
  | positionOpen
  | noPosition
  | invalidFraction
  | pricePositive
  | noMoreBars
deriving DecidableEq

/-- Increment one key of a Go counter map (`m[k]++`). -/
def bump (m : String → ℕ) (k : String) : String → ℕ :=
  fun s => if s = k then m k + 1 else m s

/-- Go `NewExchange`: clamps the configuration and starts flat. -/
def NewExchange (symbol : String) (startUSD fee slippagePct spreadPct : ℚ) :
    Exchange :=
  { symbol := symbol
    fee := if fee < 0 then 0 else fee
    slippagePct := if slippagePct < 0 ∨ 1 ≤ slippagePct then 0 else slippagePct
    spreadPct := if spreadPct < 0 ∨ 1 ≤ spreadPct then 0 else spreadPct
    spreadManual := !(decide (spreadPct < 0 ∨ 1 ≤ spreadPct))
    prevPrice := 0
    usd := if startUSD < 0 then 0 else startUSD
    position := 0
    entryPrice := 0
    shortCash := 0
    shortMargin := 0
    lastPrice := 0
    tick := 0
    orders := []
    nextID := 0
    nextLimitID := 0
    pending := []
    executedByID := fun _ => none
    limitFailed := fun _ => 0
    misses := []
    lastBar := default
    hasLastBar := false }

/-- Go `Exchange.Balance()`: pure snapshot, no state change.  When
`lastPrice ≤ 0` the entry price is used as fallback valuation price; the
position value enters equity only when that price is positive. -/
def Exchange.balance (e : Exchange) : Balance :=
  let price := if e.lastPrice ≤ 0 then e.entryPrice else e.lastPrice
  let equity :=
    e.usd + e.shortCash + e.shortMargin +
      (if 0 < price then e.position * price else 0)
  { USD := e.usd
    Position := e.position
    ShortCash := e.shortCash
    ShortMargin := e.shortMargin
    Equity := equity
    EntryPrice := e.entryPrice
    LastPrice := e.lastPrice }

/-- Go `applySpread`: widens the buy price and narrows the sell price by
half the spread percentage. -/
def applySpread (e : Exchange) (side : OrderSide) (price : ℚ) : ℚ :=
  if price ≤ 0 then price
  else if e.spreadPct ≤ 0 then price
  else
    let half := e.spreadPct / 2
    match side with
    | .buy => price * (1 + half)
    | .sell => price * (1 - half)

/-- Go `applySlippage`: worsens the price in the adverse direction. -/
def applySlippage (e : Exchange) (side : OrderSide) (price : ℚ) : ℚ :=
  if price ≤ 0 then price
  else if e.slippagePct ≤ 0 then price
  else
    match side with
    | .buy => price * (1 + e.slippagePct)
    | .sell => price * (1 - e.slippagePct)

/-- Go `execPrice`: spread first, then slippage. -/
def execPrice (e : Exchange) (side : OrderSide) (mid : ℚ) : ℚ :=
  applySlippage e side (applySpread e side mid)

/-- Go `updateSpread`: manual mode keeps the fixed spread; dynamic mode
recomputes `clamp(1bp + 1% · |return|, 0.5bp, 20bp)`. -/
def updateSpread (e : Exchange) (price : ℚ) : Exchange :=
  if e.spreadManual then { e with prevPrice := price }
  else if price ≤ 0 then e
  else
    let base : ℚ := 1 / 10000
    let minS : ℚ := 1 / 20000
    let maxS : ℚ := 1 / 500
    let extra : ℚ :=
      if 0 < e.prevPrice then |price - e.prevPrice| / e.prevPrice * (1 / 100)
      else 0
    let s0 := base + extra
    let s := if s0 < minS then minS else if maxS < s0 then maxS else s0
    { e with spreadPct := s, prevPrice := price }

/-- Go `recordOrder`: assigns the next id, snapshots the post-trade
balance and appends the order to the history. -/
def recordOrder (e : Exchange) (side : OrderSide)
    (qty mid exec feeUSD execPnL equityBefore : ℚ)
    (reason stopKind : String) (placedTick : ℤ) : Order × Exchange :=
  let nid := e.nextID + 1
  let bal := e.balance
  let order : Order :=
    { ID := nid
      Symbol := e.symbol
      Side := side
      Qty := qty
      MidPrice := mid
      Price := exec
      Fee := feeUSD
      ExecPnL := execPnL
      EquityBefore := equityBefore
      Reason := reason
      StopKind := stopKind
      PositionAfter := e.position
      USD := e.usd
      ShortCash := bal.ShortCash
      ShortMargin := bal.ShortMargin
      Equity := bal.Equity
      EntryPrice := bal.EntryPrice
      Tick := e.tick
      PlacedTick := placedTick
      SpreadPct := e.spreadPct
      SlippagePct := e.slippagePct }
  (order, { e with nextID := nid, orders := e.orders ++ [order] })

/-- Go `openLongAtPrice`. -/
def openLongAtPrice (e : Exchange) (price fraction : ℚ) (placedTick : ℤ) :
    Except ExErr (Order × Exchange) :=
  if e.position ≠ 0 then .error .positionOpen
  else if e.lastPrice ≤ 0 then .error .priceNotSet
  else
    let price := if price ≤ 0 then e.lastPrice else price
    if fraction ≤ 0 ∨ 1 < fraction then .error .invalidFraction
    else
      let equityBefore := e.balance.Equity
      let mid := price
      let notional := e.usd * fraction
      if notional ≤ 0 then .error .invalidFraction
      else
        let feeUSD := notional * e.fee
        let net := notional - feeUSD
        if net ≤ 0 then .error .invalidFraction
        else
          let x := execPrice e .buy price
          let qty := net / x
          let execPnL := qty * (mid - x)
          let e1 := { e with usd := e.usd - notional, position := qty,
                             entryPrice := x }
          .ok (recordOrder e1 .buy qty mid x feeUSD execPnL equityBefore
                 ReasonEntryLong "" placedTick)

/-- Go `openShortAtPrice`. -/
def openShortAtPrice (e : Exchange) (price fraction : ℚ) (placedTick : ℤ) :
    Except ExErr (Order × Exchange) :=
  if e.position ≠ 0 then .error .positionOpen
  else if e.lastPrice ≤ 0 then .error .priceNotSet
  else
    let price := if price ≤ 0 then e.lastPrice else price
    if fraction ≤ 0 ∨ 1 < fraction then .error .invalidFraction
    else
      let equityBefore := e.balance.Equity
      let mid := price
      let notional := e.usd * fraction
      if notional ≤ 0 then .error .invalidFraction
      else
        let feeUSD := notional * e.fee
        let net := notional - feeUSD
        if net ≤ 0 then .error .invalidFraction
        else
          let x := execPrice e .sell price
          let qty := notional / x
          let execPnL := qty * (x - mid)
          let e1 := { e with usd := e.usd - notional,
                             shortMargin := e.shortMargin + notional,
                             shortCash := e.shortCash + net,
                             position := -qty, entryPrice := x }
          .ok (recordOrder e1 .sell qty mid x feeUSD execPnL equityBefore
                 ReasonEntryShort "" placedTick)

/-- Go `closeAtPrice`: total, returns the recorded order and the new
state.  The closing price temporarily replaces `lastPrice` so that
equity is valued consistently, and the old value is restored at the end. -/
def closeAtPrice (e : Exchange) (price : ℚ) (reason stopKind : String) :
    Order × Exchange :=
  let savedLast := e.lastPrice
  let e0 := { e with lastPrice := price }
  let equityBefore := e0.balance.Equity
  let mid := price
  if 0 < e0.position then
    let x := execPrice e0 .sell price
    let qty := e0.position
    let revenue := qty * x
    let feeUSD := revenue * e0.fee
    let execPnL := qty * (x - mid)
    let e1 := { e0 with usd := e0.usd + (revenue - feeUSD), position := 0,
                        entryPrice := 0 }
    let r := recordOrder e1 .sell qty mid x feeUSD execPnL equityBefore
               reason stopKind e1.tick
    (r.1, { r.2 with lastPrice := savedLast })
  else if e0.position < 0 then
    let x := execPrice e0 .buy price
    let qty := -e0.position
    let cost := qty * x
    let feeUSD := cost * e0.fee
    let execPnL := qty * (mid - x)
    let total := cost + feeUSD
    let available := e0.shortCash + e0.shortMargin
    if available < total then
      let equityBefore2 := e0.balance.Equity
      let e1 := { e0 with usd := 0, shortCash := 0, shortMargin := 0,
                          position := 0, entryPrice := 0 }
      let r := recordOrder e1 .buy qty mid x feeUSD (-equityBefore2)
                 equityBefore2 ReasonLiquidate "" e1.tick
      (r.1, { r.2 with lastPrice := savedLast })
    else
      let e1 :=
        if total ≤ e0.shortCash then
          { e0 with shortCash := e0.shortCash - total }
        else
          let rem := total - e0.shortCash
          let sm := e0.shortMargin - rem
          { e0 with shortCash := 0, shortMargin := if sm < 0 then 0 else sm }
      let e2 := { e1 with position := 0, entryPrice := 0 }
      let e3 := { e2 with usd := e2.usd + e2.shortCash + e2.shortMargin,
                          shortCash := 0, shortMargin := 0 }
      let r := recordOrder e3 .buy qty mid x feeUSD execPnL equityBefore
                 reason stopKind e3.tick
      (r.1, { r.2 with lastPrice := savedLast })
  else
    let r := recordOrder e0 .buy 0 mid price 0 0 equityBefore reason
               stopKind e0.tick
    (r.1, { r.2 with lastPrice := savedLast })

/-- Go `pendingKindName`. -/
def pendingKindName : pendingKind → String
  | .pendingOpenLong => "open_long"
  | .pendingOpenShort => "open_short"
  | .pendingClose => "close"

/-- Go `priceInRange`: positive inputs only, normalizing `low > high`. -/
def priceInRange (price low high : ℚ) : Bool :=
  if price ≤ 0 ∨ low ≤ 0 ∨ high ≤ 0 then false
  else
    let lo := if high < low then high else low
    let hi := if high < low then low else high
    decide (lo ≤ price ∧ price ≤ hi)

/-- One `LimitMiss` record, shaped as both miss sites of `processPending`
build it. -/
def mkMiss (reason : String) (p : pendingOrder) (checkTick : ℤ)
    (bar : OHLCBar) : LimitMiss :=
  { Reason := reason
    Kind := pendingKindName p.kind
    LimitPrice := p.price
    PlacedTick := p.placedAtTick
    CheckTick := checkTick
    PrevBar := p.placedBar
    CurrBar := bar }

/-- The draining loop of Go `processPending`.  The queue is carried as an
explicit list (the loop never reads `e.pending` except through the head
and the pop, and the order-execution helpers never touch it); the
remaining queue is written back into the returned state. -/
def drainLoop (bar : OHLCBar) :
    List pendingOrder → Exchange → Option Order → Exchange × Option Order
  | [], e, fe => ({ e with pending := [] }, fe)
  | p :: rest, e, fe =>
    if e.tick ≤ p.placedAtTick then
      ({ e with pending := p :: rest }, fe)
    else if priceInRange p.price bar.Low bar.High then
      match p.kind with
      | .pendingOpenLong =>
        if e.position ≠ 0 then
          drainLoop bar rest
            { e with limitFailed := bump e.limitFailed "position_state_mismatch" } fe
        else
          match openLongAtPrice e p.price p.fraction p.placedAtTick with
          | .error _ => drainLoop bar rest e fe
          | .ok (o, e') =>
            drainLoop bar rest
              { e' with executedByID :=
                  fun i => if i = p.id then some o else e'.executedByID i }
              (match fe with | some x => some x | none => some o)
      | .pendingOpenShort =>
        if e.position ≠ 0 then
          drainLoop bar rest
            { e with limitFailed := bump e.limitFailed "position_state_mismatch" } fe
        else
          match openShortAtPrice e p.price p.fraction p.placedAtTick with
          | .error _ => drainLoop bar rest e fe
          | .ok (o, e') =>
            drainLoop bar rest
              { e' with executedByID :=
                  fun i => if i = p.id then some o else e'.executedByID i }
              (match fe with | some x => some x | none => some o)
      | .pendingClose =>
        if e.position = 0 then
          drainLoop bar rest
            { e with limitFailed := bump e.limitFailed "position_state_mismatch" } fe
        else
          let r := closeAtPrice e p.price p.reason p.stopKind
          let o := { r.1 with PlacedTick := p.placedAtTick }
          drainLoop bar rest
            { r.2 with executedByID :=
                fun i => if i = p.id then some o else (r.2).executedByID i }
            (match fe with | some x => some x | none => some o)
    else
      ({ e with
          pending := { p with lastReason := "price_not_in_hl" } :: rest,
          limitFailed := bump e.limitFailed "price_not_in_hl",
          misses := e.misses ++ [mkMiss "price_not_in_hl" p e.tick bar] }, fe)

/-- The post-loop pass of Go `processPending`: every still-queued entry
behind the head whose placement tick is strictly in the past gets a
`blocked_by_fifo_head` diagnostic but stays queued. -/
def markBlocked (e : Exchange) (bar : OHLCBar) : Exchange :=
  match e.pending with
  | [] => e
  | h :: t =>
    { e with
        pending := h :: t.map (fun p =>
          if p.placedAtTick < e.tick then
            { p with lastReason := "blocked_by_fifo_head" }
          else p),
        misses := e.misses ++
          (t.filter (fun p => decide (p.placedAtTick < e.tick))).map
            (fun p => mkMiss "blocked_by_fifo_head" p e.tick bar) }

/-- Go `processPending`: drain the FIFO queue against the bar, then mark
the blocked tail; returns the first executed order, if any. -/
def processPending (e : Exchange) (bar : OHLCBar) : Exchange × Option Order :=
  if e.pending = [] then (e, none)
  else
    let r := drainLoop bar e.pending e none
    (markBlocked r.1 bar, r.2)

/-- Go `tickBarAt`: symbol and price guards, tick clamp, spread update,
price update, queue drain, last-bar record. -/
def tickBarAt (e : Exchange) (symbol : String) (tick : ℤ) (bar : OHLCBar) :
    Except ExErr (Exchange × Option Order) :=
  if symbol ≠ e.symbol then .error .symbolMismatch
  else if bar.Close ≤ 0 then .error .pricePositive
  else
    let t := if tick < 0 then 0 else tick
    let e1 := updateSpread { e with tick := t } bar.Close
    let e2 := { e1 with lastPrice := bar.Close }
    let r := processPending e2 bar
    .ok ({ r.1 with lastBar := bar, hasLastBar := true }, r.2)

/-- Go `Exchange.OpenLong`: market open at `lastPrice`. -/
def OpenLong (e : Exchange) (fraction : ℚ) : Except ExErr (Order × Exchange) :=
  openLongAtPrice e e.lastPrice fraction e.tick

/-- Go `Exchange.OpenShort`: market open at `lastPrice`. -/
def OpenShort (e : Exchange) (fraction : ℚ) : Except ExErr (Order × Exchange) :=
  openShortAtPrice e e.lastPrice fraction e.tick

/-- Go `Exchange.LongLimit`: enqueue a pending open-long. -/
def LongLimit (e : Exchange) (price fraction : ℚ) :
    Except ExErr (ℤ × Exchange) :=
  let price := if price ≤ 0 then e.lastPrice else price
  if price ≤ 0 then .error .priceNotSet
  else if fraction ≤ 0 ∨ 1 < fraction then .error .invalidFraction
  else
    let id := e.nextLimitID + 1
    let p : pendingOrder :=
      { id := id, kind := .pendingOpenLong, price := price,
        fraction := fraction, reason := "", stopKind := "",
        placedAtTick := e.tick, lastReason := "await_next_candle",
        placedBar := e.lastBar }
    .ok (id, { e with nextLimitID := id, pending := e.pending ++ [p] })

/-- Go `Exchange.ShortLimit`: enqueue a pending open-short. -/
def ShortLimit (e : Exchange) (price fraction : ℚ) :
    Except ExErr (ℤ × Exchange) :=
  let price := if price ≤ 0 then e.lastPrice else price
  if price ≤ 0 then .error .priceNotSet
  else if fraction ≤ 0 ∨ 1 < fraction then .error .invalidFraction
  else
    let id := e.nextLimitID + 1
    let p : pendingOrder :=
      { id := id, kind := .pendingOpenShort, price := price,
        fraction := fraction, reason := "", stopKind := "",
        placedAtTick := e.tick, lastReason := "await_next_candle",
        placedBar := e.lastBar }
    .ok (id, { e with nextLimitID := id, pending := e.pending ++ [p] })

/-- Go `Exchange.CloseLimit`: enqueue a pending close. -/
def CloseLimit (e : Exchange) (price : ℚ) (reason stopKind : String) :
    Except ExErr (ℤ × Exchange) :=
  let price := if price ≤ 0 then e.lastPrice else price
  if price ≤ 0 then .error .priceNotSet
  else
    let reason := if reason = "" then ReasonExit else reason
    let id := e.nextLimitID + 1
    let p : pendingOrder :=
      { id := id, kind := .pendingClose, price := price,
        fraction := 0, reason := reason, stopKind := stopKind,
        placedAtTick := e.tick, lastReason := "await_next_candle",
        placedBar := e.lastBar }
    .ok (id, { e with nextLimitID := id, pending := e.pending ++ [p] })

/-- Go `Exchange.OpenLongLimit`: wrapper over `LongLimit`, discards the id. -/
def OpenLongLimit (e : Exchange) (price fraction : ℚ) :
    Except ExErr Exchange :=
  (LongLimit e price fraction).map (fun r => r.2)

/-- Go `Exchange.OpenShortLimit`: wrapper over `ShortLimit`. -/
def OpenShortLimit (e : Exchange) (price fraction : ℚ) :
    Except ExErr Exchange :=
  (ShortLimit e price fraction).map (fun r => r.2)

/-- Go `Exchange.CloseDealLimit`: wrapper over `CloseLimit`. -/
def CloseDealLimit (e : Exchange) (price : ℚ) (reason stopKind : String) :
    Except ExErr Exchange :=
  (CloseLimit e price reason stopKind).map (fun r => r.2)

/-- Go `Exchange.CloseDeal`: immediate market close at `lastPrice`. -/
def CloseDeal (e : Exchange) (reason : String) :
    Except ExErr (Order × Exchange) :=
  if e.position = 0 then .error .noPosition
  else if e.lastPrice ≤ 0 then .error .priceNotSet
  else
    let reason := if reason = "" then ReasonExit else reason
    let r := closeAtPrice e e.lastPrice reason ""
    .ok ({ r.1 with PlacedTick := e.tick }, r.2)

/-- Bar-replay driver (Go `Emulator` from the unnamed emulator file). -/
structure Emulator where
  symbol : String
  bars : List OHLCBar
  index : ℕ
  ex : Exchange

/-- Go `NewEmulator`: non-empty symbol (after trimming) and non-empty bars. -/
def NewEmulator (symbol : String) (startUSD fee slippagePct spreadPct : ℚ)
    (bars : List OHLCBar) : Except ExErr Emulator :=
  let symbol := symbol.trim
  if symbol = "" then .error .symbolMismatch
  else if bars = [] then .error .noMoreBars
  else
    .ok { symbol := symbol, bars := bars, index := 0,
          ex := NewExchange symbol startUSD fee slippagePct spreadPct }

/-- Go `Emulator.Next`: fail past the end; otherwise advance the exchange
with the cursor bar at `tick = index+1`, return the order-history tail
delta, and advance the cursor. -/
def Next (em : Emulator) : Except ExErr (Emulator × OHLCBar × List Order) :=
  if h : em.bars.length ≤ em.index then .error .noMoreBars
  else
    let bar := em.bars.get ⟨em.index, Nat.lt_of_not_le h⟩
    let before := em.ex.orders
    match tickBarAt em.ex em.symbol ((em.index : ℤ) + 1) bar with
    | .error err => .error err
    | .ok r =>
      let after := (r.1).orders
      let executed := if before.length < after.length
        then after.drop before.length else []
      .ok ({ em with index := em.index + 1, ex := r.1 }, bar, executed)

end Emul

namespace Emul

/-! ## Projection lemmas for the state-transforming helpers -/

section RecordOrderLemmas

variable (e : Exchange) (side : OrderSide) (qty mid exec feeUSD pnl eqb : ℚ)
variable (r sk : String) (pt : ℤ)

@[simp] lemma recordOrder_snd_usd :
    (recordOrder e side qty mid exec feeUSD pnl eqb r sk pt).2.usd = e.usd := rfl

@[simp] lemma recordOrder_snd_position :
    (recordOrder e side qty mid exec feeUSD pnl eqb r sk pt).2.position = e.position := rfl

@[simp] lemma recordOrder_snd_entryPrice :
    (recordOrder e side qty mid exec feeUSD pnl eqb r sk pt).2.entryPrice = e.entryPrice := rfl

@[simp] lemma recordOrder_snd_shortCash :
    (recordOrder e side qty mid exec feeUSD pnl eqb r sk pt).2.shortCash = e.shortCash := rfl

@[simp] lemma recordOrder_snd_shortMargin :
    (recordOrder e side qty mid exec feeUSD pnl eqb r sk pt).2.shortMargin = e.shortMargin := rfl

@[simp] lemma recordOrder_snd_lastPrice :
    (recordOrder e side qty mid exec feeUSD pnl eqb r sk pt).2.lastPrice = e.lastPrice := rfl

@[simp] lemma recordOrder_snd_tick :
    (recordOrder e side qty mid exec feeUSD pnl eqb r sk pt).2.tick = e.tick := rfl

@[simp] lemma recordOrder_snd_pending :
    (recordOrder e side qty mid exec feeUSD pnl eqb r sk pt).2.pending = e.pending := rfl

@[simp] lemma recordOrder_snd_executedByID :
    (recordOrder e side qty mid exec feeUSD pnl eqb r sk pt).2.executedByID = e.executedByID := rfl

@[simp] lemma recordOrder_snd_limitFailed :
    (recordOrder e side qty mid exec feeUSD pnl eqb r sk pt).2.limitFailed = e.limitFailed := rfl

@[simp] lemma recordOrder_snd_misses :
    (recordOrder e side qty mid exec feeUSD pnl eqb r sk pt).2.misses = e.misses := rfl

@[simp] lemma recordOrder_snd_fee :
    (recordOrder e side qty mid exec feeUSD pnl eqb r sk pt).2.fee = e.fee := rfl

@[simp] lemma recordOrder_snd_slippagePct :
    (recordOrder e side qty mid exec feeUSD pnl eqb r sk pt).2.slippagePct = e.slippagePct := rfl

@[simp] lemma recordOrder_snd_spreadPct :
    (recordOrder e side qty mid exec feeUSD pnl eqb r sk pt).2.spreadPct = e.spreadPct := rfl

@[simp] lemma recordOrder_snd_spreadManual :
    (recordOrder e side qty mid exec feeUSD pnl eqb r sk pt).2.spreadManual = e.spreadManual := rfl

@[simp] lemma recordOrder_snd_prevPrice :
    (recordOrder e side qty mid exec feeUSD pnl eqb r sk pt).2.prevPrice = e.prevPrice := rfl

@[simp] lemma recordOrder_snd_symbol :
    (recordOrder e side qty mid exec feeUSD pnl eqb r sk pt).2.symbol = e.symbol := rfl

@[simp] lemma recordOrder_snd_nextLimitID :
    (recordOrder e side qty mid exec feeUSD pnl eqb r sk pt).2.nextLimitID = e.nextLimitID := rfl

@[simp] lemma recordOrder_snd_orders :
    (recordOrder e side qty mid exec feeUSD pnl eqb r sk pt).2.orders =
      e.orders ++ [(recordOrder e side qty mid exec feeUSD pnl eqb r sk pt).1] := rfl

@[simp] lemma recordOrder_fst_Reason :
    (recordOrder e side qty mid exec feeUSD pnl eqb r sk pt).1.Reason = r := rfl

@[simp] lemma recordOrder_fst_StopKind :
    (recordOrder e side qty mid exec feeUSD pnl eqb r sk pt).1.StopKind = sk := rfl

@[simp] lemma recordOrder_fst_PlacedTick :
    (recordOrder e side qty mid exec feeUSD pnl eqb r sk pt).1.PlacedTick = pt := rfl

@[simp] lemma recordOrder_fst_ExecPnL :
    (recordOrder e side qty mid exec feeUSD pnl eqb r sk pt).1.ExecPnL = pnl := rfl

@[simp] lemma recordOrder_fst_EquityBefore :
    (recordOrder e side qty mid exec feeUSD pnl eqb r sk pt).1.EquityBefore = eqb := rfl

@[simp] lemma recordOrder_fst_Qty :
    (recordOrder e side qty mid exec feeUSD pnl eqb r sk pt).1.Qty = qty := rfl

@[simp] lemma recordOrder_fst_Fee :
    (recordOrder e side qty mid exec feeUSD pnl eqb r sk pt).1.Fee = feeUSD := rfl

@[simp] lemma recordOrder_fst_Price :
    (recordOrder e side qty mid exec feeUSD pnl eqb r sk pt).1.Price = exec := rfl

end RecordOrderLemmas

lemma updateSpread_shape (e : Exchange) (price : ℚ) :
    ∃ sp pp, updateSpread e price = { e with spreadPct := sp, prevPrice := pp } := by
  unfold updateSpread
  split
  · exact ⟨e.spreadPct, price, rfl⟩
  · split
    · exact ⟨e.spreadPct, e.prevPrice, rfl⟩
    · exact ⟨_, _, rfl⟩

section UpdateSpreadLemmas

variable (e : Exchange) (price : ℚ)

@[simp] lemma updateSpread_pending : (updateSpread e price).pending = e.pending := by
  obtain ⟨sp, pp, h⟩ := updateSpread_shape e price; rw [h]

@[simp] lemma updateSpread_orders : (updateSpread e price).orders = e.orders := by
  obtain ⟨sp, pp, h⟩ := updateSpread_shape e price; rw [h]

@[simp] lemma updateSpread_misses : (updateSpread e price).misses = e.misses := by
  obtain ⟨sp, pp, h⟩ := updateSpread_shape e price; rw [h]

@[simp] lemma updateSpread_tick : (updateSpread e price).tick = e.tick := by
  obtain ⟨sp, pp, h⟩ := updateSpread_shape e price; rw [h]

@[simp] lemma updateSpread_usd : (updateSpread e price).usd = e.usd := by
  obtain ⟨sp, pp, h⟩ := updateSpread_shape e price; rw [h]

@[simp] lemma updateSpread_position : (updateSpread e price).position = e.position := by
  obtain ⟨sp, pp, h⟩ := updateSpread_shape e price; rw [h]

@[simp] lemma updateSpread_entryPrice : (updateSpread e price).entryPrice = e.entryPrice := by
  obtain ⟨sp, pp, h⟩ := updateSpread_shape e price; rw [h]

@[simp] lemma updateSpread_shortCash : (updateSpread e price).shortCash = e.shortCash := by
  obtain ⟨sp, pp, h⟩ := updateSpread_shape e price; rw [h]

@[simp] lemma updateSpread_shortMargin : (updateSpread e price).shortMargin = e.shortMargin := by
  obtain ⟨sp, pp, h⟩ := updateSpread_shape e price; rw [h]

@[simp] lemma updateSpread_lastPrice : (updateSpread e price).lastPrice = e.lastPrice := by
  obtain ⟨sp, pp, h⟩ := updateSpread_shape e price; rw [h]

@[simp] lemma updateSpread_fee : (updateSpread e price).fee = e.fee := by
  obtain ⟨sp, pp, h⟩ := updateSpread_shape e price; rw [h]

@[simp] lemma updateSpread_slippagePct : (updateSpread e price).slippagePct = e.slippagePct := by
  obtain ⟨sp, pp, h⟩ := updateSpread_shape e price; rw [h]

@[simp] lemma updateSpread_symbol : (updateSpread e price).symbol = e.symbol := by
  obtain ⟨sp, pp, h⟩ := updateSpread_shape e price; rw [h]

@[simp] lemma updateSpread_limitFailed : (updateSpread e price).limitFailed = e.limitFailed := by
  obtain ⟨sp, pp, h⟩ := updateSpread_shape e price; rw [h]

@[simp] lemma updateSpread_executedByID : (updateSpread e price).executedByID = e.executedByID := by
  obtain ⟨sp, pp, h⟩ := updateSpread_shape e price; rw [h]

@[simp] lemma updateSpread_nextID : (updateSpread e price).nextID = e.nextID := by
  obtain ⟨sp, pp, h⟩ := updateSpread_shape e price; rw [h]

@[simp] lemma updateSpread_nextLimitID : (updateSpread e price).nextLimitID = e.nextLimitID := by
  obtain ⟨sp, pp, h⟩ := updateSpread_shape e price; rw [h]

end UpdateSpreadLemmas

lemma markBlocked_shape (e : Exchange) (bar : OHLCBar) :
    ∃ pnd ms, markBlocked e bar = { e with pending := pnd, misses := ms } := by
  unfold markBlocked
  rcases hp : e.pending with _ | ⟨h, t⟩
  · exact ⟨e.pending, e.misses, rfl⟩
  · exact ⟨_, _, rfl⟩

section MarkBlockedLemmas

variable (e : Exchange) (bar : OHLCBar)

@[simp] lemma markBlocked_orders : (markBlocked e bar).orders = e.orders := by
  obtain ⟨pnd, ms, h⟩ := markBlocked_shape e bar; rw [h]

@[simp] lemma markBlocked_tick : (markBlocked e bar).tick = e.tick := by
  obtain ⟨pnd, ms, h⟩ := markBlocked_shape e bar; rw [h]

@[simp] lemma markBlocked_usd : (markBlocked e bar).usd = e.usd := by
  obtain ⟨pnd, ms, h⟩ := markBlocked_shape e bar; rw [h]

@[simp] lemma markBlocked_position : (markBlocked e bar).position = e.position := by
  obtain ⟨pnd, ms, h⟩ := markBlocked_shape e bar; rw [h]

@[simp] lemma markBlocked_entryPrice : (markBlocked e bar).entryPrice = e.entryPrice := by
  obtain ⟨pnd, ms, h⟩ := markBlocked_shape e bar; rw [h]

@[simp] lemma markBlocked_shortCash : (markBlocked e bar).shortCash = e.shortCash := by
  obtain ⟨pnd, ms, h⟩ := markBlocked_shape e bar; rw [h]

@[simp] lemma markBlocked_shortMargin : (markBlocked e bar).shortMargin = e.shortMargin := by
  obtain ⟨pnd, ms, h⟩ := markBlocked_shape e bar; rw [h]

@[simp] lemma markBlocked_executedByID : (markBlocked e bar).executedByID = e.executedByID := by
  obtain ⟨pnd, ms, h⟩ := markBlocked_shape e bar; rw [h]

@[simp] lemma markBlocked_limitFailed : (markBlocked e bar).limitFailed = e.limitFailed := by
  obtain ⟨pnd, ms, h⟩ := markBlocked_shape e bar; rw [h]

@[simp] lemma markBlocked_fee : (markBlocked e bar).fee = e.fee := by
  obtain ⟨pnd, ms, h⟩ := markBlocked_shape e bar; rw [h]

@[simp] lemma markBlocked_slippagePct : (markBlocked e bar).slippagePct = e.slippagePct := by
  obtain ⟨pnd, ms, h⟩ := markBlocked_shape e bar; rw [h]

@[simp] lemma markBlocked_spreadPct : (markBlocked e bar).spreadPct = e.spreadPct := by
  obtain ⟨pnd, ms, h⟩ := markBlocked_shape e bar; rw [h]

@[simp] lemma markBlocked_lastPrice : (markBlocked e bar).lastPrice = e.lastPrice := by
  obtain ⟨pnd, ms, h⟩ := markBlocked_shape e bar; rw [h]

end MarkBlockedLemmas

end Emul

namespace Emul

/-! ## Success characterizations of the order operations -/

lemma openLongAtPrice_ok_eq {e : Exchange} {price fraction : ℚ} {placedTick : ℤ}
    {o : Order} {e' : Exchange}
    (h : openLongAtPrice e price fraction placedTick = .ok (o, e')) :
    e.position = 0 ∧ 0 < e.lastPrice ∧ 0 < fraction ∧ fraction ≤ 1 ∧
    0 < e.usd * fraction ∧
    0 < e.usd * fraction - e.usd * fraction * e.fee ∧
    (let pr := if price ≤ 0 then e.lastPrice else price
     let notional := e.usd * fraction
     let feeUSD := notional * e.fee
     let net := notional - feeUSD
     let x := execPrice e .buy pr
     let qty := net / x
     let e1 := { e with usd := e.usd - notional, position := qty, entryPrice := x }
     o = (recordOrder e1 .buy qty pr x feeUSD (qty * (pr - x)) e.balance.Equity
            ReasonEntryLong "" placedTick).1 ∧
     e' = (recordOrder e1 .buy qty pr x feeUSD (qty * (pr - x)) e.balance.Equity
            ReasonEntryLong "" placedTick).2) := by
  simp only [openLongAtPrice] at h
  split_ifs at h with h1 h2 h3 h4 h5 h6 <;> try exact Except.noConfusion h
  all_goals rw [Except.ok.injEq] at h
  all_goals push_neg at h1 h2 h3 h4 h5
  all_goals
    first
      | (rw [if_pos h6]
         exact ⟨h1, h2, h3.1, h3.2, h4, h5,
           (congrArg Prod.fst h).symm, (congrArg Prod.snd h).symm⟩)
      | (rw [if_neg h6]
         exact ⟨h1, h2, h3.1, h3.2, h4, h5,
           (congrArg Prod.fst h).symm, (congrArg Prod.snd h).symm⟩)

lemma openShortAtPrice_ok_eq {e : Exchange} {price fraction : ℚ} {placedTick : ℤ}
    {o : Order} {e' : Exchange}
    (h : openShortAtPrice e price fraction placedTick = .ok (o, e')) :
    e.position = 0 ∧ 0 < e.lastPrice ∧ 0 < fraction ∧ fraction ≤ 1 ∧
    0 < e.usd * fraction ∧
    0 < e.usd * fraction - e.usd * fraction * e.fee ∧
    (let pr := if price ≤ 0 then e.lastPrice else price
     let notional := e.usd * fraction
     let feeUSD := notional * e.fee
     let net := notional - feeUSD
     let x := execPrice e .sell pr
     let qty := notional / x
     let e1 := { e with usd := e.usd - notional,
                        shortMargin := e.shortMargin + notional,
                        shortCash := e.shortCash + net,
                        position := -qty, entryPrice := x }
     o = (recordOrder e1 .sell qty pr x feeUSD (qty * (x - pr)) e.balance.Equity
            ReasonEntryShort "" placedTick).1 ∧
     e' = (recordOrder e1 .sell qty pr x feeUSD (qty * (x - pr)) e.balance.Equity
            ReasonEntryShort "" placedTick).2) := by
  simp only [openShortAtPrice] at h
  split_ifs at h with h1 h2 h3 h4 h5 h6 <;> try exact Except.noConfusion h
  all_goals rw [Except.ok.injEq] at h
  all_goals push_neg at h1 h2 h3 h4 h5
  all_goals
    first
      | (rw [if_pos h6]
         exact ⟨h1, h2, h3.1, h3.2, h4, h5,
           (congrArg Prod.fst h).symm, (congrArg Prod.snd h).symm⟩)
      | (rw [if_neg h6]
         exact ⟨h1, h2, h3.1, h3.2, h4, h5,
           (congrArg Prod.fst h).symm, (congrArg Prod.snd h).symm⟩)

end Emul

namespace Emul

/-- `execPrice` does not read `lastPrice`, so updating it is irrelevant. -/
@[simp] lemma execPrice_set_lastPrice (e : Exchange) (v : ℚ) (s : OrderSide) (p : ℚ) :
    execPrice { e with lastPrice := v } s p = execPrice e s p := rfl

/-! ## C3: liquidation of a short close wipes all balances -/

/-- C3: for every close of a short position at execution price
`x = execPrice(buy, price)` with `qty = -position`, if
`shortCash + shortMargin < qty*x + qty*x*feeRate` then the close is a
liquidation: `usd`, `shortCash`, `shortMargin`, `position` and
`entryPrice` are all zeroed, and the recorded order carries reason
`"liquidation"` and `ExecPnL` exactly `-equityBefore` (equity valued at
the closing price, the fee not reconciled separately). -/
theorem C3_short_close_liquidation (e : Exchange) (price : ℚ)
    (reason stopKind : String)
    (hpos : e.position < 0)
    (hliq : e.shortCash + e.shortMargin <
      -e.position * execPrice e .buy price +
        -e.position * execPrice e .buy price * e.fee) :
    ((closeAtPrice e price reason stopKind).2).usd = 0 ∧
    ((closeAtPrice e price reason stopKind).2).shortCash = 0 ∧
    ((closeAtPrice e price reason stopKind).2).shortMargin = 0 ∧
    ((closeAtPrice e price reason stopKind).2).position = 0 ∧
    ((closeAtPrice e price reason stopKind).2).entryPrice = 0 ∧
    ((closeAtPrice e price reason stopKind).1).Reason = ReasonLiquidate ∧
    ((closeAtPrice e price reason stopKind).1).Qty = -e.position ∧
    ((closeAtPrice e price reason stopKind).1).EquityBefore =
      (Exchange.balance { e with lastPrice := price }).Equity ∧
    ((closeAtPrice e price reason stopKind).1).ExecPnL =
      -(Exchange.balance { e with lastPrice := price }).Equity := by
  have hnotpos : ¬ 0 < e.position := not_lt.mpr (le_of_lt hpos)
  simp only [closeAtPrice, execPrice_set_lastPrice]
  rw [if_neg hnotpos, if_pos hpos, if_pos hliq]
  simp

end Emul

namespace Emul

/-- Concrete short-position exchange used by the C3 witness: 100 units
short from entry 10 with 1000 reserved in each short account; closing at
price 100 costs 10000 > 2000 available. -/
def C3ex : Exchange :=
  { symbol := "btc", fee := 0, slippagePct := 0, spreadPct := 0,
    spreadManual := true, prevPrice := 0, usd := 0, position := -100,
    entryPrice := 10, shortCash := 1000, shortMargin := 1000,
    lastPrice := 100, tick := 3, orders := [], nextID := 1,
    nextLimitID := 0, pending := [], executedByID := fun _ => none,
    limitFailed := fun _ => 0, misses := [], lastBar := default,
    hasLastBar := true }

/-- Witness for C3 at the concrete state `C3ex`, closing at price 100. -/
theorem C3_short_close_liquidation_witness :
    ((closeAtPrice C3ex 100 "exit" "").2).usd = 0 ∧
    ((closeAtPrice C3ex 100 "exit" "").2).shortCash = 0 ∧
    ((closeAtPrice C3ex 100 "exit" "").2).shortMargin = 0 ∧
    ((closeAtPrice C3ex 100 "exit" "").2).position = 0 ∧
    ((closeAtPrice C3ex 100 "exit" "").2).entryPrice = 0 ∧
    ((closeAtPrice C3ex 100 "exit" "").1).Reason = ReasonLiquidate ∧
    ((closeAtPrice C3ex 100 "exit" "").1).Qty = -C3ex.position ∧
    ((closeAtPrice C3ex 100 "exit" "").1).EquityBefore =
      (Exchange.balance { C3ex with lastPrice := 100 }).Equity ∧
    ((closeAtPrice C3ex 100 "exit" "").1).ExecPnL =
      -(Exchange.balance { C3ex with lastPrice := 100 }).Equity :=
  C3_short_close_liquidation C3ex 100 "exit" "" (by norm_num [C3ex])
    (by norm_num [C3ex, execPrice, applySpread, applySlippage])

/-! ## C7: state-mismatched eligible head is silently dropped -/

/-- C7: when the FIFO head is age-eligible and its price is inside the
bar range but its kind conflicts with the position state (open while
positioned, or close while flat), the draining loop drops the head
without executing and without an error, increments the
`position_state_mismatch` counter, and continues with the next head. -/
theorem C7_pending_state_mismatch_dropped
    (bar : OHLCBar) (p : pendingOrder) (rest : List pendingOrder)
    (e : Exchange) (fe : Option Order)
    (hage : p.placedAtTick < e.tick)
    (hin : priceInRange p.price bar.Low bar.High = true)
    (hconf : ((p.kind = .pendingOpenLong ∨ p.kind = .pendingOpenShort) ∧
                e.position ≠ 0) ∨
             (p.kind = .pendingClose ∧ e.position = 0)) :
    drainLoop bar (p :: rest) e fe =
      drainLoop bar rest
        { e with limitFailed := bump e.limitFailed "position_state_mismatch" }
        fe := by
  have hnle : ¬ e.tick ≤ p.placedAtTick := not_le.mpr hage
  rcases hconf with ⟨hk | hk, hpos⟩ | ⟨hk, hpos⟩ <;>
  · simp only [drainLoop, hk]
    rw [if_neg hnle, if_pos hin, if_pos hpos]

/-- Concrete flat exchange with a pending close at the head, used by the
C7 witness. -/
def C7ex : Exchange :=
  { symbol := "btc", fee := 0, slippagePct := 0, spreadPct := 0,
    spreadManual := true, prevPrice := 0, usd := 1000, position := 0,
    entryPrice := 0, shortCash := 0, shortMargin := 0, lastPrice := 10,
    tick := 2, orders := [], nextID := 0, nextLimitID := 1,
    pending := [], executedByID := fun _ => none,
    limitFailed := fun _ => 0, misses := [], lastBar := default,
    hasLastBar := true }

/-- Pending close at price 10 placed at tick 1, for the C7 witness. -/
def C7p : pendingOrder :=
  { id := 1, kind := .pendingClose, price := 10, fraction := 0,
    reason := "exit", stopKind := "", placedAtTick := 1,
    lastReason := "await_next_candle", placedBar := default }

/-- Bar whose low-high range contains the C7 pending price. -/
def C7bar : OHLCBar :=
  { Open := 9, High := 12, Low := 8, Close := 10, Average := 10 }

/-- Witness for C7: a close-kind head while flat is dropped with the
counter bumped and the loop continuing. -/
theorem C7_pending_state_mismatch_dropped_witness :
    drainLoop C7bar (C7p :: []) C7ex none =
      drainLoop C7bar []
        { C7ex with
            limitFailed := bump C7ex.limitFailed "position_state_mismatch" }
        none :=
  C7_pending_state_mismatch_dropped C7bar C7p [] C7ex none (by decide)
    (by norm_num [priceInRange, C7p, C7bar]) (Or.inr ⟨rfl, rfl⟩)

end Emul

namespace Emul

/-- Result state of an operation: the new state on success, the old state
on error (Go error returns mutate nothing). -/
def afterE {α : Type} (r : Except ExErr (α × Exchange)) (e : Exchange) :
    Exchange :=
  match r with
  | .ok x => x.2
  | .error _ => e

/-- With a non-positive spread percentage the spread step is the identity. -/
lemma applySpread_of_nonpos {e : Exchange} (s : OrderSide) (p : ℚ)
    (h : e.spreadPct ≤ 0) : applySpread e s p = p := by
  unfold applySpread
  split_ifs with h1
  · rfl
  · rfl

/-- With a non-positive slippage percentage the slippage step is the identity. -/
lemma applySlippage_of_nonpos {e : Exchange} (s : OrderSide) (p : ℚ)
    (h : e.slippagePct ≤ 0) : applySlippage e s p = p := by
  unfold applySlippage
  split_ifs with h1
  · rfl
  · rfl

/-- With zero spread and slippage the execution price is the mid price. -/
lemma execPrice_of_zero {e : Exchange} (s : OrderSide) (p : ℚ)
    (hsp : e.spreadPct ≤ 0) (hsl : e.slippagePct ≤ 0) :
    execPrice e s p = p := by
  unfold execPrice
  rw [applySpread_of_nonpos s p hsp, applySlippage_of_nonpos s _ hsl]

/-! ## C8: the Balance equity formula (corrected) -/

/-- Exchange with `lastPrice = 0` but an open position carried at
`entryPrice = 5`: the C8 counterexample state. -/
def C8ex : Exchange :=
  { symbol := "btc", fee := 0, slippagePct := 0, spreadPct := 0,
    spreadManual := true, prevPrice := 0, usd := 100, position := 1,
    entryPrice := 5, shortCash := 2, shortMargin := 3, lastPrice := 0,
    tick := 0, orders := [], nextID := 0, nextLimitID := 0, pending := [],
    executedByID := fun _ => none, limitFailed := fun _ => 0, misses := [],
    lastBar := default, hasLastBar := false }

/-- C8 counterexample: the claim says that when `lastPrice ≤ 0` the
position value is omitted from equity, but the code falls back to
valuing the position at `entryPrice`; at `C8ex` equity is 110, not 105. -/
theorem C8_equity_counterexample :
    C8ex.lastPrice ≤ 0 ∧
    (Exchange.balance C8ex).Equity ≠
      C8ex.usd + C8ex.shortCash + C8ex.shortMargin := by
  constructor
  · decide
  · norm_num [C8ex, Exchange.balance]

/-- C8 (amended): `Balance()` is a pure snapshot; equity is
`usd + shortCash + shortMargin + position*lastPrice` when
`lastPrice > 0`; when `lastPrice ≤ 0` the entry price is used as the
fallback valuation price, and the position value is omitted only when
that fallback is also non-positive. -/
theorem C8_balance_equity (e : Exchange) :
    (0 < e.lastPrice →
      (Exchange.balance e).Equity =
        e.usd + e.shortCash + e.shortMargin + e.position * e.lastPrice) ∧
    (e.lastPrice ≤ 0 → 0 < e.entryPrice →
      (Exchange.balance e).Equity =
        e.usd + e.shortCash + e.shortMargin + e.position * e.entryPrice) ∧
    (e.lastPrice ≤ 0 → e.entryPrice ≤ 0 →
      (Exchange.balance e).Equity = e.usd + e.shortCash + e.shortMargin) ∧
    (Exchange.balance e).USD = e.usd ∧
    (Exchange.balance e).Position = e.position ∧
    (Exchange.balance e).ShortCash = e.shortCash ∧
    (Exchange.balance e).ShortMargin = e.shortMargin ∧
    (Exchange.balance e).EntryPrice = e.entryPrice ∧
    (Exchange.balance e).LastPrice = e.lastPrice := by
  refine ⟨?_, ?_, ?_, rfl, rfl, rfl, rfl, rfl, rfl⟩
  · intro hlp
    simp only [Exchange.balance, if_neg (not_le.mpr hlp), if_pos hlp]
  · intro hle hent
    simp only [Exchange.balance, if_pos hle, if_pos hent]
  · intro hle hent
    simp only [Exchange.balance, if_pos hle, if_neg (not_lt.mpr hent),
      add_zero]

/-- Exchange with a positive `lastPrice`, for the C8 witness. -/
def C8ex2 : Exchange :=
  { C8ex with lastPrice := 7 }

/-- Witness for the amended C8 at two concrete states, one per branch of
the valuation fallback. -/
theorem C8_balance_equity_witness :
    (Exchange.balance C8ex2).Equity =
      C8ex2.usd + C8ex2.shortCash + C8ex2.shortMargin +
        C8ex2.position * C8ex2.lastPrice ∧
    (Exchange.balance C8ex).Equity =
      C8ex.usd + C8ex.shortCash + C8ex.shortMargin +
        C8ex.position * C8ex.entryPrice :=
  ⟨(C8_balance_equity C8ex2).1 (by decide),
   (C8_balance_equity C8ex).2.1 (by decide) (by decide)⟩

end Emul

namespace Emul

/-! ## C6: short-open accounting (corrected) -/

/-- Flat exchange with 1000 USD at price 10, zero fee, for C6. -/
def C6ex : Exchange :=
  { symbol := "btc", fee := 0, slippagePct := 0, spreadPct := 0,
    spreadManual := true, prevPrice := 0, usd := 1000, position := 0,
    entryPrice := 0, shortCash := 0, shortMargin := 0, lastPrice := 10,
    tick := 1, orders := [], nextID := 0, nextLimitID := 0, pending := [],
    executedByID := fun _ => none, limitFailed := fun _ => 0, misses := [],
    lastBar := default, hasLastBar := true }

/-- C6 counterexample: the claim reads the debited notional as splitting
into the `shortCash` and `shortMargin` increments, but the code credits
`shortCash` with the net proceeds *and* `shortMargin` with the full
notional: at `C6ex` with fraction 1 the two accounts gain 2000 in total
while only 1000 USD is debited. -/
theorem C6_split_counterexample :
    (afterE (OpenShort C6ex 1) C6ex).shortCash - C6ex.shortCash +
      ((afterE (OpenShort C6ex 1) C6ex).shortMargin - C6ex.shortMargin) ≠
      C6ex.usd - (afterE (OpenShort C6ex 1) C6ex).usd := by
  norm_num [C6ex, OpenShort, openShortAtPrice, execPrice, applySpread,
    applySlippage, afterE, recordOrder, Exchange.balance]

/-- C6 (amended): opening a short with fraction `f` on a flat exchange
debits USD by the notional `usd*f`, sets `position = -(notional/x)` for
`x = execPrice(sell, lastPrice)`, credits `shortCash` with the notional
net of fee and `shortMargin` with the **full** notional (so the reserve
grows by notional + net, more than the debit); with zero spread/slippage
and `feeRate ≤ 1/2` the updated reserve covers the buy-back
`qty*x + qty*x*feeRate` at the opening price. -/
theorem C6_short_open_accounting (e : Exchange) (f : ℚ)
    (hflat : e.position = 0) (hlp : 0 < e.lastPrice)
    (hf0 : 0 < f) (hf1 : f ≤ 1) (husd : 0 < e.usd)
    (hfee1 : e.fee < 1) :
    ∃ o e', OpenShort e f = .ok (o, e') ∧
      e'.usd = e.usd - e.usd * f ∧
      e'.shortCash = e.shortCash + (e.usd * f - e.usd * f * e.fee) ∧
      e'.shortMargin = e.shortMargin + e.usd * f ∧
      e'.position = -(e.usd * f / execPrice e .sell e.lastPrice) ∧
      e'.entryPrice = execPrice e .sell e.lastPrice ∧
      o.Qty = e.usd * f / execPrice e .sell e.lastPrice ∧
      (e.spreadPct = 0 → e.slippagePct = 0 → e.fee ≤ 1 / 2 →
        0 ≤ e.shortCash → 0 ≤ e.shortMargin →
        e.usd * f / execPrice e .sell e.lastPrice *
            execPrice e .sell e.lastPrice +
          e.usd * f / execPrice e .sell e.lastPrice *
            execPrice e .sell e.lastPrice * e.fee ≤
          e'.shortCash + e'.shortMargin) := by
  have hnot : ¬ e.position ≠ 0 := not_not.mpr hflat
  have hnl : ¬ e.lastPrice ≤ 0 := not_le.mpr hlp
  have hfr : ¬ (f ≤ 0 ∨ 1 < f) := by push_neg; exact ⟨hf0, hf1⟩
  have hnotional : 0 < e.usd * f := mul_pos husd hf0
  have hn1 : ¬ e.usd * f ≤ 0 := not_le.mpr hnotional
  have hnet : 0 < e.usd * f - e.usd * f * e.fee := by nlinarith
  have hn2 : ¬ e.usd * f - e.usd * f * e.fee ≤ 0 := not_le.mpr hnet
  have heq : OpenShort e f =
      .ok (recordOrder
            { e with usd := e.usd - e.usd * f,
                     shortMargin := e.shortMargin + e.usd * f,
                     shortCash := e.shortCash + (e.usd * f - e.usd * f * e.fee),
                     position := -(e.usd * f / execPrice e .sell e.lastPrice),
                     entryPrice := execPrice e .sell e.lastPrice }
            .sell (e.usd * f / execPrice e .sell e.lastPrice) e.lastPrice
            (execPrice e .sell e.lastPrice) (e.usd * f * e.fee)
            (e.usd * f / execPrice e .sell e.lastPrice *
              (execPrice e .sell e.lastPrice - e.lastPrice))
            e.balance.Equity ReasonEntryShort "" e.tick) := by
    simp only [OpenShort, openShortAtPrice]
    rw [if_neg hnot, if_neg hnl, if_neg hfr, if_neg hn1, if_neg hn2,
      if_neg hnl]
  refine ⟨_, _, heq, by simp, by simp, by simp, by simp, by simp, by simp, ?_⟩
  intro hsp hsl hfee2 hsc hsm
  rw [execPrice_of_zero .sell e.lastPrice (le_of_eq hsp) (le_of_eq hsl)]
  rw [div_mul_cancel₀ (e.usd * f) (ne_of_gt hlp)]
  simp only [recordOrder_snd_shortCash, recordOrder_snd_shortMargin]
  have hkey : 0 ≤ e.usd * f * (1 - 2 * e.fee) := by
    apply mul_nonneg hnotional.le
    linarith
  nlinarith [hkey]

end Emul

namespace Emul

/-- Witness for the amended C6 at `C6ex` with fraction 1. -/
theorem C6_short_open_accounting_witness :
    ∃ o e', OpenShort C6ex 1 = .ok (o, e') ∧
      e'.usd = C6ex.usd - C6ex.usd * 1 ∧
      e'.shortCash = C6ex.shortCash + (C6ex.usd * 1 - C6ex.usd * 1 * C6ex.fee) ∧
      e'.shortMargin = C6ex.shortMargin + C6ex.usd * 1 ∧
      e'.position = -(C6ex.usd * 1 / execPrice C6ex .sell C6ex.lastPrice) ∧
      e'.entryPrice = execPrice C6ex .sell C6ex.lastPrice ∧
      o.Qty = C6ex.usd * 1 / execPrice C6ex .sell C6ex.lastPrice ∧
      (C6ex.spreadPct = 0 → C6ex.slippagePct = 0 → C6ex.fee ≤ 1 / 2 →
        0 ≤ C6ex.shortCash → 0 ≤ C6ex.shortMargin →
        C6ex.usd * 1 / execPrice C6ex .sell C6ex.lastPrice *
            execPrice C6ex .sell C6ex.lastPrice +
          C6ex.usd * 1 / execPrice C6ex .sell C6ex.lastPrice *
            execPrice C6ex .sell C6ex.lastPrice * C6ex.fee ≤
          e'.shortCash + e'.shortMargin) :=
  C6_short_open_accounting C6ex 1 rfl (by decide) (by decide) (by decide)
    (by decide) (by decide)

end Emul

namespace Emul

/-- Closing an open long with the default reason succeeds and reduces to
one `recordOrder` call on the credited state (all temporary `lastPrice`
substitutions are identities because the close happens at `lastPrice`). -/
lemma CloseDeal_empty_long_eq (e : Exchange)
    (hpos : 0 < e.position) (hlp : 0 < e.lastPrice) :
    CloseDeal e "" =
      .ok (recordOrder
        { e with
            usd := e.usd + (e.position * execPrice e OrderSide.sell e.lastPrice -
                e.position * execPrice e OrderSide.sell e.lastPrice * e.fee),
            position := 0, entryPrice := 0 }
        OrderSide.sell e.position e.lastPrice (execPrice e OrderSide.sell e.lastPrice)
        (e.position * execPrice e OrderSide.sell e.lastPrice * e.fee)
        (e.position * (execPrice e OrderSide.sell e.lastPrice - e.lastPrice))
        (Exchange.balance e).Equity ReasonExit "" e.tick) := by
  simp only [CloseDeal, closeAtPrice]
  rw [if_neg (ne_of_gt hpos), if_neg (not_le.mpr hlp)]
  rw [if_pos hpos]
  simp only [if_true]
  rfl

end Emul

namespace Emul

/-- Fields of the state and order produced by a zero-cost long close:
full sale proceeds are credited and the realized spread/slippage PnL is
zero. -/
lemma CloseDeal_empty_long_fields (E : Exchange) (hpos : 0 < E.position)
    (hlp : 0 < E.lastPrice) (hfeeE : E.fee = 0) (hspE : E.spreadPct = 0)
    (hslE : E.slippagePct = 0) :
    ∃ o2 e2, CloseDeal E "" = .ok (o2, e2) ∧
      e2.usd = E.usd + E.position * E.lastPrice ∧
      e2.position = 0 ∧ e2.entryPrice = 0 ∧ o2.ExecPnL = 0 ∧
      o2.Reason = ReasonExit := by
  have hx := execPrice_of_zero (e := E) OrderSide.sell E.lastPrice
    (le_of_eq hspE) (le_of_eq hslE)
  refine ⟨_, _, CloseDeal_empty_long_eq E hpos hlp, ?_, ?_, ?_, ?_, ?_⟩
  · simp [hx, hfeeE]
  · simp
  · simp
  · simp [hx]
  · simp

end Emul

namespace Emul

/-!  ## C5: zero-cost round trip restores the USD balance exactly -/

/-- C5: with zero fee, slippage and (fixed) spread, on a flat exchange
with positive USD and price, `OpenLong f` followed immediately by
`CloseDeal` at the same `lastPrice` restores `usd` exactly, leaves the
position flat, and both recorded orders have zero `ExecPnL`. -/
theorem C5_zero_cost_round_trip (e : Exchange) (f : ℚ)
    (hfee : e.fee = 0) (hslip : e.slippagePct = 0) (hspread : e.spreadPct = 0)
    (hflat : e.position = 0) (husd : 0 < e.usd) (hlp : 0 < e.lastPrice)
    (hf0 : 0 < f) (hf1 : f ≤ 1) :
    ∃ o1 e1 o2 e2,
      OpenLong e f = .ok (o1, e1) ∧ CloseDeal e1 "" = .ok (o2, e2) ∧
      e2.usd = e.usd ∧ e2.position = 0 ∧ e2.entryPrice = 0 ∧
      o1.ExecPnL = 0 ∧ o2.ExecPnL = 0 := by
  have hnot : ¬ e.position ≠ 0 := not_not.mpr hflat
  have hnl : ¬ e.lastPrice ≤ 0 := not_le.mpr hlp
  have hfr : ¬ (f ≤ 0 ∨ 1 < f) := by push_neg; exact ⟨hf0, hf1⟩
  have hnotional : 0 < e.usd * f := mul_pos husd hf0
  have hn1 : ¬ e.usd * f ≤ 0 := not_le.mpr hnotional
  have hnet : 0 < e.usd * f - e.usd * f * e.fee := by nlinarith
  have hn2 : ¬ e.usd * f - e.usd * f * e.fee ≤ 0 := not_le.mpr hnet
  have hx : execPrice e OrderSide.buy e.lastPrice = e.lastPrice :=
    @execPrice_of_zero e OrderSide.buy e.lastPrice (le_of_eq hspread)
      (le_of_eq hslip)
  have heq1 : OpenLong e f =
      .ok (recordOrder
        { e with
            usd := e.usd - e.usd * f,
            position := e.usd * f / e.lastPrice,
            entryPrice := e.lastPrice }
        OrderSide.buy (e.usd * f / e.lastPrice) e.lastPrice e.lastPrice 0 0
        e.balance.Equity ReasonEntryLong "" e.tick) := by
    simp only [OpenLong, openLongAtPrice]
    rw [if_neg hnot, if_neg hnl, if_neg hfr, if_neg hn1, if_neg hn2,
      if_neg hnl]
    simp only [hfee, hx, mul_zero, sub_zero, sub_self]
  obtain ⟨o2, e2, heq2, husd2, hpos2, hent2, hpnl2, -⟩ :=
    CloseDeal_empty_long_fields
      ((recordOrder
        { e with
            usd := e.usd - e.usd * f,
            position := e.usd * f / e.lastPrice,
            entryPrice := e.lastPrice }
        OrderSide.buy (e.usd * f / e.lastPrice) e.lastPrice e.lastPrice 0 0
        e.balance.Equity ReasonEntryLong "" e.tick).2)
      (by simpa using div_pos hnotional hlp)
      (by simpa using hlp) (by simpa using hfee) (by simpa using hspread)
      (by simpa using hslip)
  refine ⟨_, _, o2, e2, heq1, heq2, ?_, hpos2, hent2, by simp, hpnl2⟩
  rw [husd2]
  simp only [recordOrder_snd_usd, recordOrder_snd_position,
    recordOrder_snd_lastPrice]
  rw [div_mul_cancel₀ _ (ne_of_gt hlp)]
  ring

end Emul

namespace Emul

/-- Flat zero-cost exchange for the C5 witness. -/
def C5ex : Exchange :=
  { symbol := "btc", fee := 0, slippagePct := 0, spreadPct := 0,
    spreadManual := true, prevPrice := 0, usd := 1000, position := 0,
    entryPrice := 0, shortCash := 0, shortMargin := 0, lastPrice := 10,
    tick := 1, orders := [], nextID := 0, nextLimitID := 0, pending := [],
    executedByID := fun _ => none, limitFailed := fun _ => 0, misses := [],
    lastBar := default, hasLastBar := true }

/-- Witness for C5 at `C5ex` with fraction 1. -/
theorem C5_zero_cost_round_trip_witness :
    ∃ o1 e1 o2 e2,
      OpenLong C5ex 1 = .ok (o1, e1) ∧ CloseDeal e1 "" = .ok (o2, e2) ∧
      e2.usd = C5ex.usd ∧ e2.position = 0 ∧ e2.entryPrice = 0 ∧
      o1.ExecPnL = 0 ∧ o2.ExecPnL = 0 :=
  C5_zero_cost_round_trip C5ex 1 rfl rfl rfl rfl (by decide) (by decide)
    (by decide) (by decide)

/-! ## C1: an out-of-range FIFO head blocks the whole tick -/

/-- C1: on a `tickBarAt` call whose pending head was placed strictly
earlier but whose limit price is outside the bar's normalized
`[low, high]`, nothing executes: the order history is untouched, the
head stays queued tagged `price_not_in_hl` with a miss recorded and the
counter bumped, and every later queued entry placed strictly earlier
stays queued, tagged `blocked_by_fifo_head` with a miss recorded —
even if its own price is inside the range. -/
theorem C1_head_out_of_range_blocks (e : Exchange) (sym : String)
    (tick : ℤ) (bar : OHLCBar) (p : pendingOrder)
    (rest : List pendingOrder)
    (hsym : sym = e.symbol) (hclose : 0 < bar.Close) (htick : 0 ≤ tick)
    (hpend : e.pending = p :: rest)
    (hage : p.placedAtTick < tick)
    (hout : priceInRange p.price bar.Low bar.High = false) :
    ∃ e', tickBarAt e sym tick bar = .ok (e', none) ∧
      e'.orders = e.orders ∧
      e'.pending =
        { p with lastReason := "price_not_in_hl" } ::
          rest.map (fun q =>
            if q.placedAtTick < tick then
              { q with lastReason := "blocked_by_fifo_head" }
            else q) ∧
      e'.misses = e.misses ++ [mkMiss "price_not_in_hl" p tick bar] ++
        (rest.filter (fun q => decide (q.placedAtTick < tick))).map
          (fun q => mkMiss "blocked_by_fifo_head" q tick bar) ∧
      e'.limitFailed "price_not_in_hl" =
        e.limitFailed "price_not_in_hl" + 1 := by
  have hsym' : ¬ sym ≠ e.symbol := not_not.mpr hsym
  have hcl : ¬ bar.Close ≤ 0 := not_le.mpr hclose
  have htk : ¬ tick < 0 := not_lt.mpr htick
  simp only [tickBarAt]
  rw [if_neg hsym', if_neg hcl, if_neg htk]
  simp only [processPending, updateSpread_pending, hpend]
  rw [if_neg (List.cons_ne_nil p rest)]
  simp only [drainLoop, updateSpread_tick]
  rw [if_neg (not_le.mpr hage)]
  rw [if_neg (by simp [hout])]
  refine ⟨_, rfl, ?_, ?_, ?_, ?_⟩
  · simp [markBlocked]
  · simp [markBlocked]
  · simp [markBlocked, mkMiss]
  · simp [markBlocked, bump]

end Emul

namespace Emul

/-- Head pending order whose price 100 misses the witness bar. -/
def C1p : pendingOrder :=
  { id := 1, kind := .pendingOpenLong, price := 100, fraction := 1,
    reason := "", stopKind := "", placedAtTick := 0,
    lastReason := "await_next_candle", placedBar := default }

/-- Tail pending order whose price 10 is inside the witness bar. -/
def C1q : pendingOrder :=
  { id := 2, kind := .pendingOpenLong, price := 10, fraction := 1,
    reason := "", stopKind := "", placedAtTick := 0,
    lastReason := "await_next_candle", placedBar := default }

/-- Bar with range [8, 12] for the C1 witness. -/
def C1bar : OHLCBar :=
  { Open := 9, High := 12, Low := 8, Close := 10, Average := 10 }

/-- Exchange with two pending opens: head out of range, tail in range. -/
def C1ex : Exchange :=
  { symbol := "btc", fee := 0, slippagePct := 0, spreadPct := 0,
    spreadManual := true, prevPrice := 0, usd := 1000, position := 0,
    entryPrice := 0, shortCash := 0, shortMargin := 0, lastPrice := 10,
    tick := 0, orders := [], nextID := 0, nextLimitID := 2,
    pending := [C1p, C1q], executedByID := fun _ => none,
    limitFailed := fun _ => 0, misses := [], lastBar := default,
    hasLastBar := true }




/-- Witness for C1: the blocked tail order's price 10 is inside [8,12],
yet nothing executes because the head's price 100 is not. -/
theorem C1_head_out_of_range_blocks_witness :
    ∃ e', tickBarAt C1ex "btc" 1 C1bar = .ok (e', none) ∧
      e'.orders = C1ex.orders ∧
      e'.pending =
        { C1p with lastReason := "price_not_in_hl" } ::
          [C1q].map (fun q =>
            if q.placedAtTick < 1 then
              { q with lastReason := "blocked_by_fifo_head" }
            else q) ∧
      e'.misses = C1ex.misses ++ [mkMiss "price_not_in_hl" C1p 1 C1bar] ++
        ([C1q].filter (fun q => decide (q.placedAtTick < 1))).map
          (fun q => mkMiss "blocked_by_fifo_head" q 1 C1bar) ∧
      e'.limitFailed "price_not_in_hl" =
        C1ex.limitFailed "price_not_in_hl" + 1 :=
  C1_head_out_of_range_blocks C1ex "btc" 1 C1bar C1p [C1q] rfl (by decide)
    (by decide) rfl (by decide) (by decide)

/-! ## C2: no same-tick fill -/

lemma openLongAtPrice_ok_aux {e : Exchange} {price fraction : ℚ}
    {placedTick : ℤ} {o : Order} {e' : Exchange}
    (h : openLongAtPrice e price fraction placedTick = .ok (o, e')) :
    e'.executedByID = e.executedByID ∧ e'.tick = e.tick ∧
    o.PlacedTick = placedTick := by
  obtain ⟨-, -, -, -, -, -, h7⟩ := openLongAtPrice_ok_eq h
  obtain ⟨ho, he⟩ := h7
  subst ho
  subst he
  refine ⟨?_, ?_, ?_⟩ <;> simp

lemma openShortAtPrice_ok_aux {e : Exchange} {price fraction : ℚ}
    {placedTick : ℤ} {o : Order} {e' : Exchange}
    (h : openShortAtPrice e price fraction placedTick = .ok (o, e')) :
    e'.executedByID = e.executedByID ∧ e'.tick = e.tick ∧
    o.PlacedTick = placedTick := by
  obtain ⟨-, -, -, -, -, -, h7⟩ := openShortAtPrice_ok_eq h
  obtain ⟨ho, he⟩ := h7
  subst ho
  subst he
  refine ⟨?_, ?_, ?_⟩ <;> simp

lemma closeAtPrice_aux (e : Exchange) (price : ℚ) (reason sk : String) :
    ((closeAtPrice e price reason sk).2).executedByID = e.executedByID ∧
    ((closeAtPrice e price reason sk).2).tick = e.tick := by
  simp only [closeAtPrice]
  split_ifs <;> constructor <;> simp

/-- One executed step of the draining loop: every change to
`executedByID` either is the freshly stored order (whose `PlacedTick` is
in the past) or comes from the recursive call. -/
lemma drain_exec_new {bar : OHLCBar} {rest : List pendingOrder}
    {e e1 : Exchange} {fe' : Option Order} {pid id : ℤ} {o1 : Order}
    (hbyid : e1.executedByID = e.executedByID) (htick : e1.tick = e.tick)
    (hpt : o1.PlacedTick < e.tick)
    (ih : ∀ (e2 : Exchange) (fe : Option Order) (id2 : ℤ),
      (drainLoop bar rest e2 fe).1.executedByID id2 ≠ e2.executedByID id2 →
      ∃ o, (drainLoop bar rest e2 fe).1.executedByID id2 = some o ∧
        o.PlacedTick < e2.tick)
    (hch : (drainLoop bar rest
        { e1 with executedByID :=
            fun i => if i = pid then some o1 else e1.executedByID i }
        fe').1.executedByID id ≠ e.executedByID id) :
    ∃ o, (drainLoop bar rest
        { e1 with executedByID :=
            fun i => if i = pid then some o1 else e1.executedByID i }
        fe').1.executedByID id = some o ∧ o.PlacedTick < e.tick := by
  by_cases hres : (drainLoop bar rest
      { e1 with executedByID :=
          fun i => if i = pid then some o1 else e1.executedByID i }
      fe').1.executedByID id =
      ({ e1 with executedByID :=
          fun i => if i = pid then some o1 else e1.executedByID i
        }).executedByID id
  · rw [hres] at hch ⊢
    by_cases hid : id = pid
    · exact ⟨o1, by simp [hid], hpt⟩
    · exact absurd (by simp [hid, congrFun hbyid id]) hch
  · obtain ⟨o, ha, hb⟩ := ih _ fe' id hres
    refine ⟨o, ha, ?_⟩
    have ht : ({ e1 with executedByID :=
        fun i => if i = pid then some o1 else e1.executedByID i }).tick =
        e.tick := by simpa using htick
    rwa [ht] at hb

/-- Induction over the draining loop: any entry added to `executedByID`
during the loop is an order whose `PlacedTick` is strictly before the
current tick. -/
lemma drainLoop_executedByID (bar : OHLCBar) (q : List pendingOrder) :
    ∀ (e : Exchange) (fe : Option Order) (id : ℤ),
      (drainLoop bar q e fe).1.executedByID id ≠ e.executedByID id →
      ∃ o, (drainLoop bar q e fe).1.executedByID id = some o ∧
        o.PlacedTick < e.tick := by
  induction q with
  | nil =>
    intro e fe id hch
    exact absurd rfl hch
  | cons p rest ih =>
    intro e fe id hch
    rw [drainLoop] at hch ⊢
    by_cases h1 : e.tick ≤ p.placedAtTick
    · rw [if_pos h1] at hch
      exact absurd rfl hch
    · rw [if_neg h1] at hch ⊢
      have hage : p.placedAtTick < e.tick := not_le.mp h1
      by_cases h2 : priceInRange p.price bar.Low bar.High = true
      · rw [if_pos h2] at hch ⊢
        rcases hk : p.kind with _ | _ | _
        · simp only [hk] at hch ⊢
          by_cases h3 : e.position ≠ 0
          · rw [if_pos h3] at hch ⊢
            exact ih _ fe id hch
          · rw [if_neg h3] at hch ⊢
            rcases hop : openLongAtPrice e p.price p.fraction p.placedAtTick
              with err | ⟨o1, e1⟩
            · rw [hop] at hch
              exact ih _ fe id hch
            · rw [hop] at hch
              obtain ⟨hbyid, htick, hpt⟩ := openLongAtPrice_ok_aux hop
              exact drain_exec_new hbyid htick (by rw [hpt]; exact hage)
                ih hch
        · simp only [hk] at hch ⊢
          by_cases h3 : e.position ≠ 0
          · rw [if_pos h3] at hch ⊢
            exact ih _ fe id hch
          · rw [if_neg h3] at hch ⊢
            rcases hop : openShortAtPrice e p.price p.fraction p.placedAtTick
              with err | ⟨o1, e1⟩
            · rw [hop] at hch
              exact ih _ fe id hch
            · rw [hop] at hch
              obtain ⟨hbyid, htick, hpt⟩ := openShortAtPrice_ok_aux hop
              exact drain_exec_new hbyid htick (by rw [hpt]; exact hage)
                ih hch
        · simp only [hk] at hch ⊢
          by_cases h3 : e.position = 0
          · rw [if_pos h3] at hch ⊢
            exact ih _ fe id hch
          · rw [if_neg h3] at hch ⊢
            obtain ⟨hbyid, htick⟩ :=
              closeAtPrice_aux e p.price p.reason p.stopKind
            exact drain_exec_new hbyid htick (by simpa using hage) ih hch
      · rw [if_neg h2] at hch ⊢
        exact absurd rfl hch

end Emul

namespace Emul

/-- The draining loop never changes the current tick. -/
lemma drainLoop_tick (bar : OHLCBar) (q : List pendingOrder) :
    ∀ (e : Exchange) (fe : Option Order),
      ((drainLoop bar q e fe).1).tick = e.tick := by
  induction q with
  | nil => intro e fe; rfl
  | cons p rest ih =>
    intro e fe
    rw [drainLoop]
    by_cases h1 : e.tick ≤ p.placedAtTick
    · rw [if_pos h1]
    · rw [if_neg h1]
      by_cases h2 : priceInRange p.price bar.Low bar.High = true
      · rw [if_pos h2]
        rcases hk : p.kind with _ | _ | _
        · simp only [hk]
          by_cases h3 : e.position ≠ 0
          · rw [if_pos h3]; exact ih _ fe
          · rw [if_neg h3]
            rcases hop : openLongAtPrice e p.price p.fraction p.placedAtTick
              with err | ⟨o1, e1⟩
            · exact ih _ fe
            · rw [ih _ _]
              simpa using (openLongAtPrice_ok_aux hop).2.1
        · simp only [hk]
          by_cases h3 : e.position ≠ 0
          · rw [if_pos h3]; exact ih _ fe
          · rw [if_neg h3]
            rcases hop : openShortAtPrice e p.price p.fraction p.placedAtTick
              with err | ⟨o1, e1⟩
            · exact ih _ fe
            · rw [ih _ _]
              simpa using (openShortAtPrice_ok_aux hop).2.1
        · simp only [hk]
          by_cases h3 : e.position = 0
          · rw [if_pos h3]; exact ih _ fe
          · rw [if_neg h3]
            rw [ih _ _]
            simpa using (closeAtPrice_aux e p.price p.reason p.stopKind).2
      · rw [if_neg h2]

/-- `processPending` never changes the current tick. -/
lemma processPending_tick (e : Exchange) (bar : OHLCBar) :
    ((processPending e bar).1).tick = e.tick := by
  simp only [processPending]
  split_ifs with h1
  · rfl
  · rw [markBlocked_tick, drainLoop_tick]

/-- Any entry added to `executedByID` by `processPending` is an order
whose `PlacedTick` is strictly before the current tick. -/
lemma processPending_executedByID (e : Exchange) (bar : OHLCBar) (id : ℤ)
    (hch : (processPending e bar).1.executedByID id ≠ e.executedByID id) :
    ∃ o, (processPending e bar).1.executedByID id = some o ∧
      o.PlacedTick < e.tick := by
  simp only [processPending] at hch ⊢
  split_ifs at hch ⊢ with h1
  · exact absurd rfl hch
  · rw [markBlocked_executedByID] at hch ⊢
    exact drainLoop_executedByID bar e.pending e none id hch

/-- C2: a `tickBarAt` call executes a queued order only when the
current (clamped) tick is strictly greater than the order's
`placedAtTick`: every order newly stored in `executedByID` this tick
has `PlacedTick < currentTick`, so a limit placed at tick T can first
fill at tick T+1. -/
theorem C2_no_same_tick_fill (e : Exchange) (sym : String) (tick : ℤ)
    (bar : OHLCBar) (e' : Exchange) (res : Option Order) (id : ℤ)
    (h : tickBarAt e sym tick bar = .ok (e', res))
    (hch : e'.executedByID id ≠ e.executedByID id) :
    ∃ o, e'.executedByID id = some o ∧ o.PlacedTick < e'.tick ∧
      e'.tick = (if tick < 0 then 0 else tick) := by
  simp only [tickBarAt] at h
  split_ifs at h with h1 h2 h3 <;> try exact Except.noConfusion h
  all_goals
    rw [Except.ok.injEq] at h
    injection h with he' hres
    subst he'
    subst hres
  all_goals
    obtain ⟨o, ha, hb⟩ :=
      processPending_executedByID _ bar id (by simpa using hch)
    refine ⟨o, by simpa using ha, ?_, ?_⟩
  · simpa [processPending_tick] using hb
  · simp [processPending_tick, h3]
  · simpa [processPending_tick] using hb
  · simp [processPending_tick, h3]

end Emul

namespace Emul

/-- Pending open-long placed at tick 0 at price 10, for the C2 witness. -/
def C2p : pendingOrder :=
  { id := 1, kind := .pendingOpenLong, price := 10, fraction := 1,
    reason := "", stopKind := "", placedAtTick := 0,
    lastReason := "await_next_candle", placedBar := default }

/-- Flat exchange holding the C2 pending order. -/
def C2ex : Exchange :=
  { symbol := "btc", fee := 0, slippagePct := 0, spreadPct := 0,
    spreadManual := true, prevPrice := 0, usd := 1000, position := 0,
    entryPrice := 0, shortCash := 0, shortMargin := 0, lastPrice := 10,
    tick := 0, orders := [], nextID := 0, nextLimitID := 1,
    pending := [C2p], executedByID := fun _ => none,
    limitFailed := fun _ => 0, misses := [], lastBar := default,
    hasLastBar := true }

/-- Bar containing the C2 limit price. -/
def C2bar : OHLCBar :=
  { Open := 9, High := 12, Low := 8, Close := 10, Average := 10 }

/-- Concrete result of the C2 witness tick (the fill happens at tick 1). -/
def C2res : Exchange × Option Order :=
  match tickBarAt C2ex "btc" 1 C2bar with
  | .ok r => r
  | .error _ => (C2ex, none)

/-- Witness for C2: the order filled at tick 1 was placed at tick 0. -/
theorem C2_no_same_tick_fill_witness :
    ∃ o, (C2res.1).executedByID 1 = some o ∧
      o.PlacedTick < (C2res.1).tick ∧
      (C2res.1).tick = (if (1 : ℤ) < 0 then 0 else 1) :=
  C2_no_same_tick_fill C2ex "btc" 1 C2bar C2res.1 C2res.2 1
    (by norm_num [C2res, C2ex, C2p, C2bar, tickBarAt, updateSpread,
       processPending, drainLoop, priceInRange, openLongAtPrice,
       execPrice, applySpread, applySlippage, recordOrder,
       Exchange.balance, markBlocked, mkMiss, bump])
    (by
      norm_num [C2res, C2ex, C2p, C2bar, tickBarAt, updateSpread,
        processPending, drainLoop, priceInRange, openLongAtPrice,
        execPrice, applySpread, applySlippage, recordOrder,
        Exchange.balance, markBlocked, mkMiss, bump]
      exact fun hcon => Option.noConfusion hcon)

end Emul

namespace Emul

/-! ## C9: the Emulator driver -/

lemma openLongAtPrice_ok_orders {e : Exchange} {price fraction : ℚ}
    {placedTick : ℤ} {o : Order} {e' : Exchange}
    (h : openLongAtPrice e price fraction placedTick = .ok (o, e')) :
    e'.orders = e.orders ++ [o] := by
  obtain ⟨-, -, -, -, -, -, h7⟩ := openLongAtPrice_ok_eq h
  obtain ⟨ho, he⟩ := h7
  subst ho
  subst he
  simp

lemma openShortAtPrice_ok_orders {e : Exchange} {price fraction : ℚ}
    {placedTick : ℤ} {o : Order} {e' : Exchange}
    (h : openShortAtPrice e price fraction placedTick = .ok (o, e')) :
    e'.orders = e.orders ++ [o] := by
  obtain ⟨-, -, -, -, -, -, h7⟩ := openShortAtPrice_ok_eq h
  obtain ⟨ho, he⟩ := h7
  subst ho
  subst he
  simp

lemma closeAtPrice_orders (e : Exchange) (price : ℚ) (reason sk : String) :
    ((closeAtPrice e price reason sk).2).orders =
      e.orders ++ [(closeAtPrice e price reason sk).1] := by
  simp only [closeAtPrice]
  split_ifs <;> simp

/-- The draining loop only appends to the order history. -/
lemma drainLoop_orders (bar : OHLCBar) (q : List pendingOrder) :
    ∀ (e : Exchange) (fe : Option Order),
      ∃ tl, ((drainLoop bar q e fe).1).orders = e.orders ++ tl := by
  induction q with
  | nil => intro e fe; exact ⟨[], by simp [drainLoop]⟩
  | cons p rest ih =>
    intro e fe
    rw [drainLoop]
    by_cases h1 : e.tick ≤ p.placedAtTick
    · rw [if_pos h1]; exact ⟨[], by simp⟩
    · rw [if_neg h1]
      by_cases h2 : priceInRange p.price bar.Low bar.High = true
      · rw [if_pos h2]
        rcases hk : p.kind with _ | _ | _
        · simp only [hk]
          by_cases h3 : e.position ≠ 0
          · rw [if_pos h3]; exact ih _ fe
          · rw [if_neg h3]
            rcases hop : openLongAtPrice e p.price p.fraction p.placedAtTick
              with err | ⟨o1, e1⟩
            · exact ih _ fe
            · obtain ⟨tl, htl⟩ := ih
                { e1 with executedByID :=
                    fun i => if i = p.id then some o1 else e1.executedByID i }
                (match fe with | some x => some x | none => some o1)
            
              refine ⟨[o1] ++ tl, ?_⟩
              rw [htl]
              have : e1.orders = e.orders ++ [o1] :=
                openLongAtPrice_ok_orders hop
              simp [this]
        · simp only [hk]
          by_cases h3 : e.position ≠ 0
          · rw [if_pos h3]; exact ih _ fe
          · rw [if_neg h3]
            rcases hop : openShortAtPrice e p.price p.fraction p.placedAtTick
              with err | ⟨o1, e1⟩
            · exact ih _ fe
            · obtain ⟨tl, htl⟩ := ih
                { e1 with executedByID :=
                    fun i => if i = p.id then some o1 else e1.executedByID i }
                (match fe with | some x => some x | none => some o1)
              refine ⟨[o1] ++ tl, ?_⟩
              rw [htl]
              have : e1.orders = e.orders ++ [o1] :=
                openShortAtPrice_ok_orders hop
              simp [this]
        · simp only [hk]
          by_cases h3 : e.position = 0
          · rw [if_pos h3]; exact ih _ fe
          · rw [if_neg h3]
            obtain ⟨tl, htl⟩ := ih _
              (match fe with
                | some x => some x
                | none => some { (closeAtPrice e p.price p.reason
                    p.stopKind).1 with PlacedTick := p.placedAtTick })
            refine ⟨[(closeAtPrice e p.price p.reason p.stopKind).1] ++ tl, ?_⟩
            rw [htl]
            have := closeAtPrice_orders e p.price p.reason p.stopKind
            simp at this ⊢
            rw [this]
            simp
      · rw [if_neg h2]
        exact ⟨[], by simp⟩

/-- `processPending` only appends to the order history. -/
lemma processPending_orders (e : Exchange) (bar : OHLCBar) :
    ∃ tl, ((processPending e bar).1).orders = e.orders ++ tl := by
  simp only [processPending]
  split_ifs with h1
  · exact ⟨[], by simp⟩
  · obtain ⟨tl, htl⟩ := drainLoop_orders bar e.pending e none
    exact ⟨tl, by simpa using htl⟩

/-- The executed slice computed by `Next` is exactly the appended tail. -/
lemma tail_delta (before tl : List Order) :
    (if before.length < (before ++ tl).length then
      (before ++ tl).drop before.length else []) = tl := by
  rcases tl with _ | ⟨a, t⟩
  · simp
  · rw [if_pos (by simp)]
    exact List.drop_left before (a :: t)

end Emul

namespace Emul

/-- C9: `Next` fails with `noMoreBars` exactly when the cursor is past
the last bar; otherwise (symbol consistent, positive close) it advances
the Exchange with the cursor bar at tick `index+1`, returns that bar
with exactly the orders appended to the history during the step, in
execution order, and advances the cursor. -/
theorem C9_emulator_next (em : Emulator) :
    (em.bars.length ≤ em.index → Next em = .error .noMoreBars) ∧
    (∀ h : em.index < em.bars.length,
      em.symbol = em.ex.symbol →
      0 < (em.bars.get ⟨em.index, h⟩).Close →
      ∃ ex' res executed,
        tickBarAt em.ex em.symbol ((em.index : ℤ) + 1)
            (em.bars.get ⟨em.index, h⟩) = .ok (ex', res) ∧
        Next em = .ok ({ em with index := em.index + 1, ex := ex' },
          em.bars.get ⟨em.index, h⟩, executed) ∧
        ex'.orders = em.ex.orders ++ executed) := by
  constructor
  · intro hle
    simp only [Next]
    rw [dif_pos hle]
  · intro h hsym hclose
    obtain ⟨ex', res, htba⟩ :
        ∃ ex' res, tickBarAt em.ex em.symbol ((em.index : ℤ) + 1)
          (em.bars.get ⟨em.index, h⟩) = .ok (ex', res) := by
      simp only [tickBarAt]
      rw [if_neg (not_not.mpr hsym), if_neg (not_le.mpr hclose)]
      exact ⟨_, _, rfl⟩
    have hord : ∃ tl, ex'.orders = em.ex.orders ++ tl := by
      simp only [tickBarAt] at htba
      rw [if_neg (not_not.mpr hsym), if_neg (not_le.mpr hclose)]
        at htba
      rw [Except.ok.injEq] at htba
      injection htba with h1 h2
      subst h1
      obtain ⟨tl, htl⟩ := processPending_orders
        ({ updateSpread { em.ex with tick := if ((em.index : ℤ) + 1) < 0
              then 0 else ((em.index : ℤ) + 1) }
            (em.bars.get ⟨em.index, h⟩).Close
          with lastPrice := (em.bars.get ⟨em.index, h⟩).Close })
        (em.bars.get ⟨em.index, h⟩)
      exact ⟨tl, by simpa using htl⟩
    obtain ⟨tl, htl⟩ := hord
    refine ⟨ex', res, tl, htba, ?_, htl⟩
    simp only [Next]
    rw [dif_neg (not_le.mpr h)]
    rw [htba]
    simp only [htl, tail_delta]

/-- One-bar emulator at the start, for the C9 witness. -/
def C9bar : OHLCBar :=
  { Open := 9, High := 12, Low := 8, Close := 10, Average := 10 }

/-- Fresh exchange backing the C9 witness emulator. -/
def C9ex : Exchange := NewExchange "btc" 1000 0 0 0

/-- Emulator with one bar and the cursor at 0. -/
def C9em : Emulator :=
  { symbol := "btc", bars := [C9bar], index := 0, ex := C9ex }

/-- Emulator whose cursor is past the last bar. -/
def C9empast : Emulator :=
  { symbol := "btc", bars := [C9bar], index := 1, ex := C9ex }

/-- Witness for C9: exhaustion on the spent emulator; a successful
step on the fresh one. -/
theorem C9_emulator_next_witness :
    Next C9empast = .error .noMoreBars ∧
    (∃ ex' res executed,
      tickBarAt C9em.ex C9em.symbol ((C9em.index : ℤ) + 1) C9bar =
        .ok (ex', res) ∧
      Next C9em = .ok ({ C9em with index := C9em.index + 1, ex := ex' },
        C9bar, executed) ∧
      ex'.orders = C9em.ex.orders ++ executed) :=
  ⟨(C9_emulator_next C9empast).1 (by decide),
   (C9_emulator_next C9em).2 (by decide) rfl (by decide)⟩

end Emul

namespace Emul

/-! ## C4: position trichotomy and the entryPrice/position invariant -/

/-- Result state of an operation returning only a state on success. -/
def afterS (r : Except ExErr Exchange) (e : Exchange) : Exchange :=
  match r with
  | .ok e' => e'
  | .error _ => e

/-- Result state of `tickBarAt` (state is the first pair component). -/
def afterT (r : Except ExErr (Exchange × Option Order)) (e : Exchange) :
    Exchange :=
  match r with
  | .ok x => x.1
  | .error _ => e

/-- Exactly one of `position = 0`, `position > 0`, `position < 0`. -/
def positionTrichotomy (e : Exchange) : Prop :=
  (e.position = 0 ∧ ¬ 0 < e.position ∧ ¬ e.position < 0) ∨
  (0 < e.position ∧ e.position ≠ 0 ∧ ¬ e.position < 0) ∨
  (e.position < 0 ∧ e.position ≠ 0 ∧ ¬ 0 < e.position)

instance (e : Exchange) : Decidable (positionTrichotomy e) := by
  unfold positionTrichotomy; infer_instance

lemma positionTrichotomy_all (e : Exchange) : positionTrichotomy e := by
  rcases lt_trichotomy e.position 0 with h | h | h
  · exact Or.inr (Or.inr ⟨h, ne_of_lt h, lt_asymm h⟩)
  · exact Or.inl ⟨h, by simp [h], by simp [h]⟩
  · exact Or.inr (Or.inl ⟨h, ne_of_gt h, lt_asymm h⟩)

/-- The C4 invariant: trichotomy plus `entryPrice = 0 ↔ position = 0`. -/
def C4Inv (e : Exchange) : Prop :=
  positionTrichotomy e ∧ (e.entryPrice = 0 ↔ e.position = 0)

instance (e : Exchange) : Decidable (C4Inv e) := by
  unfold C4Inv; infer_instance

lemma ExInv_openLong {e : Exchange} {price fr : ℚ} {pt : ℤ} {o : Order}
    {e' : Exchange} (h : openLongAtPrice e price fr pt = .ok (o, e')) :
    e'.entryPrice = 0 ↔ e'.position = 0 := by
  obtain ⟨hp0, hlp, hf0, hf1, hn, hnet, h7⟩ := openLongAtPrice_ok_eq h
  obtain ⟨ho, he⟩ := h7
  subst he
  simp only [recordOrder_snd_entryPrice, recordOrder_snd_position]
  constructor
  · intro hx
    rw [hx, div_zero]
  · intro hq
    rcases div_eq_zero_iff.mp hq with hbad | hx
    · exact absurd hbad (ne_of_gt hnet)
    · exact hx

lemma ExInv_openShort {e : Exchange} {price fr : ℚ} {pt : ℤ} {o : Order}
    {e' : Exchange} (h : openShortAtPrice e price fr pt = .ok (o, e')) :
    e'.entryPrice = 0 ↔ e'.position = 0 := by
  obtain ⟨hp0, hlp, hf0, hf1, hn, hnet, h7⟩ := openShortAtPrice_ok_eq h
  obtain ⟨ho, he⟩ := h7
  subst he
  simp only [recordOrder_snd_entryPrice, recordOrder_snd_position]
  constructor
  · intro hx
    rw [hx, div_zero, neg_zero]
  · intro hq
    rw [neg_eq_zero] at hq
    rcases div_eq_zero_iff.mp hq with hbad | hx
    · exact absurd hbad (ne_of_gt hn)
    · exact hx

lemma ExInv_close (e : Exchange) (price : ℚ) (reason sk : String)
    (hInv : e.entryPrice = 0 ↔ e.position = 0) :
    ((closeAtPrice e price reason sk).2).entryPrice = 0 ↔
      ((closeAtPrice e price reason sk).2).position = 0 := by
  simp only [closeAtPrice]
  split_ifs with h1 h2 h3 <;> try simp
  all_goals exact hInv

lemma drainLoop_ExInv (bar : OHLCBar) (q : List pendingOrder) :
    ∀ (e : Exchange) (fe : Option Order),
      (e.entryPrice = 0 ↔ e.position = 0) →
      (((drainLoop bar q e fe).1).entryPrice = 0 ↔
        ((drainLoop bar q e fe).1).position = 0) := by
  induction q with
  | nil => intro e fe hInv; exact hInv
  | cons p rest ih =>
    intro e fe hInv
    rw [drainLoop]
    by_cases h1 : e.tick ≤ p.placedAtTick
    · rw [if_pos h1]; exact hInv
    · rw [if_neg h1]
      by_cases h2 : priceInRange p.price bar.Low bar.High = true
      · rw [if_pos h2]
        rcases hk : p.kind with _ | _ | _
        · simp only [hk]
          by_cases h3 : e.position ≠ 0
          · rw [if_pos h3]; exact ih _ fe hInv
          · rw [if_neg h3]
            rcases hop : openLongAtPrice e p.price p.fraction p.placedAtTick
              with err | ⟨o1, e1⟩
            · exact ih _ fe hInv
            · have hx := ExInv_openLong hop
              exact ih _ _ hx
        · simp only [hk]
          by_cases h3 : e.position ≠ 0
          · rw [if_pos h3]; exact ih _ fe hInv
          · rw [if_neg h3]
            rcases hop : openShortAtPrice e p.price p.fraction p.placedAtTick
              with err | ⟨o1, e1⟩
            · exact ih _ fe hInv
            · have hx := ExInv_openShort hop
              exact ih _ _ hx
        · simp only [hk]
          by_cases h3 : e.position = 0
          · rw [if_pos h3]; exact ih _ fe hInv
          · rw [if_neg h3]
            have hx := ExInv_close e p.price p.reason p.stopKind hInv
            exact ih _ _ hx
      · rw [if_neg h2]
        exact hInv

lemma processPending_ExInv (e : Exchange) (bar : OHLCBar)
    (hInv : e.entryPrice = 0 ↔ e.position = 0) :
    (((processPending e bar).1).entryPrice = 0 ↔
      ((processPending e bar).1).position = 0) := by
  simp only [processPending]
  split_ifs with h1
  · exact hInv
  · simp only [markBlocked_entryPrice, markBlocked_position]
    exact drainLoop_ExInv bar e.pending e none hInv

lemma tickBarAt_ok_ExInv {e : Exchange} {sym : String} {tick : ℤ}
    {bar : OHLCBar} {ex' : Exchange} {res : Option Order}
    (h : tickBarAt e sym tick bar = .ok (ex', res))
    (hInv : e.entryPrice = 0 ↔ e.position = 0) :
    ex'.entryPrice = 0 ↔ ex'.position = 0 := by
  simp only [tickBarAt] at h
  split_ifs at h with h1 h2 h3 <;> try exact Except.noConfusion h
  all_goals
    rw [Except.ok.injEq] at h
    injection h with ha hb
    rw [← ha]
    dsimp only
    exact processPending_ExInv _ bar (by simpa using hInv)

lemma CloseDeal_ok_state {e : Exchange} {reason : String} {o : Order}
    {e' : Exchange} (h : CloseDeal e reason = .ok (o, e')) :
    e' = (closeAtPrice e e.lastPrice
      (if reason = "" then ReasonExit else reason) "").2 := by
  simp only [CloseDeal] at h
  split_ifs at h with h1 h2 h3 <;> try exact Except.noConfusion h
  all_goals rw [Except.ok.injEq] at h
  all_goals
    first
      | (rw [if_pos h3]; exact (congrArg Prod.snd h).symm)
      | (rw [if_neg h3]; exact (congrArg Prod.snd h).symm)

lemma LongLimit_ok_state {e : Exchange} {price fr : ℚ} {id : ℤ}
    {e' : Exchange} (h : LongLimit e price fr = .ok (id, e')) :
    e'.entryPrice = e.entryPrice ∧ e'.position = e.position ∧
    e'.usd = e.usd ∧ e'.shortCash = e.shortCash ∧
    e'.shortMargin = e.shortMargin := by
  simp only [LongLimit] at h
  split_ifs at h <;> try exact Except.noConfusion h
  all_goals rw [Except.ok.injEq] at h
  all_goals
    have h2 := (congrArg Prod.snd h).symm
  all_goals subst h2
  all_goals exact ⟨rfl, rfl, rfl, rfl, rfl⟩

lemma ShortLimit_ok_state {e : Exchange} {price fr : ℚ} {id : ℤ}
    {e' : Exchange} (h : ShortLimit e price fr = .ok (id, e')) :
    e'.entryPrice = e.entryPrice ∧ e'.position = e.position ∧
    e'.usd = e.usd ∧ e'.shortCash = e.shortCash ∧
    e'.shortMargin = e.shortMargin := by
  simp only [ShortLimit] at h
  split_ifs at h <;> try exact Except.noConfusion h
  all_goals rw [Except.ok.injEq] at h
  all_goals
    have h2 := (congrArg Prod.snd h).symm
  all_goals subst h2
  all_goals exact ⟨rfl, rfl, rfl, rfl, rfl⟩

lemma CloseLimit_ok_state {e : Exchange} {price : ℚ} {reason sk : String}
    {id : ℤ} {e' : Exchange}
    (h : CloseLimit e price reason sk = .ok (id, e')) :
    e'.entryPrice = e.entryPrice ∧ e'.position = e.position ∧
    e'.usd = e.usd ∧ e'.shortCash = e.shortCash ∧
    e'.shortMargin = e.shortMargin := by
  simp only [CloseLimit] at h
  split_ifs at h <;> try exact Except.noConfusion h
  all_goals rw [Except.ok.injEq] at h
  all_goals
    have h2 := (congrArg Prod.snd h).symm
  all_goals subst h2
  all_goals exact ⟨rfl, rfl, rfl, rfl, rfl⟩

end Emul

namespace Emul

/-- C4: after construction and after every public operation (market and
limit opens and closes, limit placement) and every `tickBarAt`, exactly
one of `position = 0`, `position > 0`, `position < 0` holds, and
`entryPrice = 0` iff `position = 0` (errors leave the state unchanged). -/
theorem C4_position_entry_invariant :
    (∀ symbol startUSD fee slippagePct spreadPct,
      C4Inv (NewExchange symbol startUSD fee slippagePct spreadPct)) ∧
    (∀ e fr, C4Inv e → C4Inv (afterE (OpenLong e fr) e)) ∧
    (∀ e fr, C4Inv e → C4Inv (afterE (OpenShort e fr) e)) ∧
    (∀ e price fr, C4Inv e → C4Inv (afterE (LongLimit e price fr) e)) ∧
    (∀ e price fr, C4Inv e → C4Inv (afterE (ShortLimit e price fr) e)) ∧
    (∀ e price reason sk,
      C4Inv e → C4Inv (afterE (CloseLimit e price reason sk) e)) ∧
    (∀ e price fr, C4Inv e → C4Inv (afterS (OpenLongLimit e price fr) e)) ∧
    (∀ e price fr, C4Inv e → C4Inv (afterS (OpenShortLimit e price fr) e)) ∧
    (∀ e price reason sk,
      C4Inv e → C4Inv (afterS (CloseDealLimit e price reason sk) e)) ∧
    (∀ e reason, C4Inv e → C4Inv (afterE (CloseDeal e reason) e)) ∧
    (∀ e sym tick bar, C4Inv e → C4Inv (afterT (tickBarAt e sym tick bar) e)) := by
  refine ⟨?_, ?_, ?_, ?_, ?_, ?_, ?_, ?_, ?_, ?_, ?_⟩
  · intro sym u f sl sp
    refine ⟨positionTrichotomy_all _, ?_⟩
    simp [NewExchange]
  · intro e fr hInv
    refine ⟨positionTrichotomy_all _, ?_⟩
    rcases hr : OpenLong e fr with err | ⟨o, e'⟩
    · exact hInv.2
    · exact ExInv_openLong hr
  · intro e fr hInv
    refine ⟨positionTrichotomy_all _, ?_⟩
    rcases hr : OpenShort e fr with err | ⟨o, e'⟩
    · exact hInv.2
    · exact ExInv_openShort hr
  · intro e price fr hInv
    refine ⟨positionTrichotomy_all _, ?_⟩
    rcases hr : LongLimit e price fr with err | ⟨id, e'⟩
    · exact hInv.2
    · obtain ⟨h1, h2, -, -, -⟩ := LongLimit_ok_state hr
      show e'.entryPrice = 0 ↔ e'.position = 0
      rw [h1, h2]
      exact hInv.2
  · intro e price fr hInv
    refine ⟨positionTrichotomy_all _, ?_⟩
    rcases hr : ShortLimit e price fr with err | ⟨id, e'⟩
    · exact hInv.2
    · obtain ⟨h1, h2, -, -, -⟩ := ShortLimit_ok_state hr
      show e'.entryPrice = 0 ↔ e'.position = 0
      rw [h1, h2]
      exact hInv.2
  · intro e price reason sk hInv
    refine ⟨positionTrichotomy_all _, ?_⟩
    rcases hr : CloseLimit e price reason sk with err | ⟨id, e'⟩
    · exact hInv.2
    · obtain ⟨h1, h2, -, -, -⟩ := CloseLimit_ok_state hr
      show e'.entryPrice = 0 ↔ e'.position = 0
      rw [h1, h2]
      exact hInv.2
  · intro e price fr hInv
    refine ⟨positionTrichotomy_all _, ?_⟩
    simp only [OpenLongLimit]
    rcases hr : LongLimit e price fr with err | ⟨id, e'⟩
    · exact hInv.2
    · obtain ⟨h1, h2, -, -, -⟩ := LongLimit_ok_state hr
      show e'.entryPrice = 0 ↔ e'.position = 0
      rw [h1, h2]
      exact hInv.2
  · intro e price fr hInv
    refine ⟨positionTrichotomy_all _, ?_⟩
    simp only [OpenShortLimit]
    rcases hr : ShortLimit e price fr with err | ⟨id, e'⟩
    · exact hInv.2
    · obtain ⟨h1, h2, -, -, -⟩ := ShortLimit_ok_state hr
      show e'.entryPrice = 0 ↔ e'.position = 0
      rw [h1, h2]
      exact hInv.2
  · intro e price reason sk hInv
    refine ⟨positionTrichotomy_all _, ?_⟩
    simp only [CloseDealLimit]
    rcases hr : CloseLimit e price reason sk with err | ⟨id, e'⟩
    · exact hInv.2
    · obtain ⟨h1, h2, -, -, -⟩ := CloseLimit_ok_state hr
      show e'.entryPrice = 0 ↔ e'.position = 0
      rw [h1, h2]
      exact hInv.2
  · intro e reason hInv
    refine ⟨positionTrichotomy_all _, ?_⟩
    rcases hr : CloseDeal e reason with err | ⟨o, e'⟩
    · exact hInv.2
    · have hst := CloseDeal_ok_state hr
      show e'.entryPrice = 0 ↔ e'.position = 0
      rw [hst]
      exact ExInv_close e e.lastPrice _ "" hInv.2
  · intro e sym tick bar hInv
    refine ⟨positionTrichotomy_all _, ?_⟩
    rcases hr : tickBarAt e sym tick bar with err | ⟨ex', res⟩
    · exact hInv.2
    · show ex'.entryPrice = 0 ↔ ex'.position = 0
      exact tickBarAt_ok_ExInv hr hInv.2

/-- Flat exchange for the C4 witness. -/
def C4ex : Exchange :=
  { symbol := "btc", fee := 0, slippagePct := 0, spreadPct := 0,
    spreadManual := true, prevPrice := 0, usd := 1000, position := 0,
    entryPrice := 0, shortCash := 0, shortMargin := 0, lastPrice := 10,
    tick := 1, orders := [], nextID := 0, nextLimitID := 0, pending := [],
    executedByID := fun _ => none, limitFailed := fun _ => 0, misses := [],
    lastBar := default, hasLastBar := true }

/-- Witness for C4: the invariant holds after a concrete market open. -/
theorem C4_position_entry_invariant_witness :
    C4Inv (afterE (OpenLong C4ex (1 : ℚ)) C4ex) :=
  C4_position_entry_invariant.2.1 C4ex 1 (by decide)

end Emul

namespace Emul

/-! ## C10: non-negativity of usd, shortCash and shortMargin -/

/-- The monetary part of the C10 invariant. -/
def MoneyInv (e : Exchange) : Prop :=
  0 ≤ e.usd ∧ 0 ≤ e.shortCash ∧ 0 ≤ e.shortMargin

/-- Configuration facts needed to push the monetary invariant through
the operations: clamped fee/slippage/spread, and a fee below 1 whenever
a long position is held (a long can only be opened when the net of fee
is positive). -/
def ParamInv (e : Exchange) : Prop :=
  0 ≤ e.fee ∧ 0 ≤ e.slippagePct ∧ e.slippagePct < 1 ∧
  0 ≤ e.spreadPct ∧ e.spreadPct < 1 ∧ (0 < e.position → e.fee < 1)

/-- Every queued limit order carries a positive price (validated at
placement time). -/
def PendingInv (l : List pendingOrder) : Prop := ∀ p ∈ l, 0 < p.price

/-- The full C10 inductive invariant. -/
def C10Inv (e : Exchange) : Prop :=
  MoneyInv e ∧ ParamInv e ∧ PendingInv e.pending

instance (e : Exchange) : Decidable (MoneyInv e) := by
  unfold MoneyInv; infer_instance

instance (e : Exchange) : Decidable (ParamInv e) := by
  unfold ParamInv; infer_instance

instance (l : List pendingOrder) : Decidable (PendingInv l) := by
  unfold PendingInv; infer_instance

instance (e : Exchange) : Decidable (C10Inv e) := by
  unfold C10Inv; infer_instance

lemma applySpread_pos {e : Exchange} (s : OrderSide) {p : ℚ} (hp : 0 < p)
    (h2 : e.spreadPct < 2) : 0 < applySpread e s p := by
  unfold applySpread
  split_ifs with ha hb
  · exact hp
  · exact hp
  · have hsp : 0 < e.spreadPct := not_le.mp hb
    cases s
    · exact mul_pos hp (by linarith)
    · exact mul_pos hp (by linarith)

lemma applySlippage_pos {e : Exchange} (s : OrderSide) {p : ℚ} (hp : 0 < p)
    (h1 : e.slippagePct < 1) : 0 < applySlippage e s p := by
  unfold applySlippage
  split_ifs with ha hb
  · exact hp
  · exact hp
  · have hsl : 0 < e.slippagePct := not_le.mp hb
    cases s
    · exact mul_pos hp (by linarith)
    · exact mul_pos hp (by linarith)

lemma execPrice_pos {e : Exchange} (s : OrderSide) {p : ℚ} (hp : 0 < p)
    (hsp : e.spreadPct < 2) (hsl : e.slippagePct < 1) :
    0 < execPrice e s p := by
  unfold execPrice
  exact applySlippage_pos s (applySpread_pos s hp hsp) hsl

/-- `NewExchange` establishes the C10 invariant: all balances clamped to
non-negative, percentages clamped into range, flat position, empty queue. -/
lemma NewExchange_C10 (symbol : String)
    (startUSD fee slippagePct spreadPct : ℚ) :
    C10Inv (NewExchange symbol startUSD fee slippagePct spreadPct) := by
  simp only [C10Inv, MoneyInv, ParamInv, PendingInv, NewExchange]
  split_ifs
  all_goals
    (refine ⟨⟨?_, le_refl 0, le_refl 0⟩, ⟨?_, ?_, ?_, ?_, ?_, ?_⟩, ?_⟩ <;>
      (first
        | (norm_num; done)
        | (intro hcon; exact absurd hcon (lt_irrefl 0))
        | (intro p hp; exact absurd hp (List.not_mem_nil p))
        | ((try push_neg at *); (try casesm* _ ∧ _);
           (first | assumption | linarith))))

end Emul

namespace Emul

lemma openLongAtPrice_C10 {e : Exchange} {price fr : ℚ} {pt : ℤ}
    {o : Order} {e' : Exchange}
    (h : openLongAtPrice e price fr pt = .ok (o, e'))
    (hm : MoneyInv e) (hpar : ParamInv e) :
    MoneyInv e' ∧ ParamInv e' ∧ e'.pending = e.pending := by
  obtain ⟨hp0, hlp, hf0, hf1, hn, hnet, h7⟩ := openLongAtPrice_ok_eq h
  obtain ⟨ho, he⟩ := h7
  subst he
  obtain ⟨hu, hsc, hsm⟩ := hm
  obtain ⟨hfe, hs0, hs1, hq0, hq1, hposf⟩ := hpar
  have hfee1 : e.fee < 1 := by
    by_contra hc
    push_neg at hc
    nlinarith [mul_nonneg (sub_nonneg.mpr hc) (le_of_lt hn)]
  refine ⟨⟨?_, ?_, ?_⟩, ⟨?_, ?_, ?_, ?_, ?_, ?_⟩, ?_⟩
  · simp only [recordOrder_snd_usd]
    (try dsimp only)
    nlinarith [mul_le_mul_of_nonneg_left hf1 hu]
  · simpa using hsc
  · simpa using hsm
  · simpa using hfe
  · simpa using hs0
  · simpa using hs1
  · simpa using hq0
  · simpa using hq1
  · intro hx
    simpa using hfee1
  · simp

lemma openShortAtPrice_C10 {e : Exchange} {price fr : ℚ} {pt : ℤ}
    {o : Order} {e' : Exchange}
    (h : openShortAtPrice e price fr pt = .ok (o, e'))
    (hm : MoneyInv e) (hpar : ParamInv e) :
    MoneyInv e' ∧ ParamInv e' ∧ e'.pending = e.pending := by
  obtain ⟨hp0, hlp, hf0, hf1, hn, hnet, h7⟩ := openShortAtPrice_ok_eq h
  obtain ⟨ho, he⟩ := h7
  subst he
  obtain ⟨hu, hsc, hsm⟩ := hm
  obtain ⟨hfe, hs0, hs1, hq0, hq1, hposf⟩ := hpar
  have hfee1 : e.fee < 1 := by
    by_contra hc
    push_neg at hc
    nlinarith [mul_nonneg (sub_nonneg.mpr hc) (le_of_lt hn)]
  refine ⟨⟨?_, ?_, ?_⟩, ⟨?_, ?_, ?_, ?_, ?_, ?_⟩, ?_⟩
  · simp only [recordOrder_snd_usd]
    (try dsimp only)
    nlinarith [mul_le_mul_of_nonneg_left hf1 hu]
  · simp only [recordOrder_snd_shortCash]
    (try dsimp only)
    nlinarith
  · simp only [recordOrder_snd_shortMargin]
    (try dsimp only)
    nlinarith
  · simpa using hfe
  · simpa using hs0
  · simpa using hs1
  · simpa using hq0
  · simpa using hq1
  · intro hx
    simpa using hfee1
  · simp

/-- The fields of a close that the parameter invariant reads are
untouched, and the resulting position is zero or unchanged. -/
lemma closeAtPrice_fields (e : Exchange) (price : ℚ) (reason sk : String) :
    ((closeAtPrice e price reason sk).2).fee = e.fee ∧
    ((closeAtPrice e price reason sk).2).slippagePct = e.slippagePct ∧
    ((closeAtPrice e price reason sk).2).spreadPct = e.spreadPct ∧
    ((closeAtPrice e price reason sk).2).pending = e.pending ∧
    (((closeAtPrice e price reason sk).2).position = 0 ∨
      ((closeAtPrice e price reason sk).2).position = e.position) := by
  simp only [closeAtPrice]
  split_ifs <;> refine ⟨by simp, by simp, by simp, by simp, ?_⟩ <;> simp

lemma closeAtPrice_C10param (e : Exchange) (price : ℚ) (reason sk : String)
    (hpar : ParamInv e) :
    ParamInv ((closeAtPrice e price reason sk).2) ∧
    ((closeAtPrice e price reason sk).2).pending = e.pending := by
  obtain ⟨h1, h2, h3, h4, h5⟩ := closeAtPrice_fields e price reason sk
  obtain ⟨a1, a2, a3, a4, a5, a6⟩ := hpar
  refine ⟨⟨?_, ?_, ?_, ?_, ?_, ?_⟩, h4⟩
  · rw [h1]; exact a1
  · rw [h2]; exact a2
  · rw [h2]; exact a3
  · rw [h3]; exact a4
  · rw [h3]; exact a5
  · rcases h5 with hz | hs
    · rw [hz]
      intro hcon
      exact absurd hcon (lt_irrefl 0)
    · rw [hs, h1]
      exact a6

lemma closeAtPrice_C10money (e : Exchange) (price : ℚ) (reason sk : String)
    (hm : MoneyInv e) (hpar : ParamInv e) (hp : 0 < price) :
    MoneyInv ((closeAtPrice e price reason sk).2) := by
  obtain ⟨hu, hsc, hsm⟩ := hm
  obtain ⟨hfe, hs0, hs1, hq0, hq1, hposf⟩ := hpar
  have hxs : 0 < execPrice e OrderSide.sell price :=
    execPrice_pos _ hp (by linarith) hs1
  have hxb : 0 < execPrice e OrderSide.buy price :=
    execPrice_pos _ hp (by linarith) hs1
  simp only [closeAtPrice, execPrice_set_lastPrice]
  split_ifs with h1 h2 h3 h4 h5
  · -- closing a long: proceeds net of fee are positive
    have hfee1 := hposf h1
    refine ⟨?_, by simpa using hsc, by simpa using hsm⟩
    simp only [recordOrder_snd_usd]
    (try dsimp only)
    nlinarith [mul_pos (mul_pos h1 hxs) (show (0:ℚ) < 1 - e.fee by linarith)]
  · -- liquidation zeroes everything
    exact ⟨by simp, by simp, by simp⟩
  · -- buy-back fully covered by shortCash
    refine ⟨?_, by simp, by simp⟩
    simp only [recordOrder_snd_usd]
    (try dsimp only)
    linarith
  · -- buy-back eats into shortMargin, clamped at zero
    refine ⟨?_, by simp, by simp⟩
    simp only [recordOrder_snd_usd]
    (try dsimp only)
    linarith
  · refine ⟨?_, by simp, by simp⟩
    simp only [recordOrder_snd_usd]
    (try dsimp only)
    linarith
  · -- flat: nothing moves
    exact ⟨by simpa using hu, by simpa using hsc, by simpa using hsm⟩

end Emul

namespace Emul

lemma updateSpread_C10param {e : Exchange} (price : ℚ)
    (hpar : ParamInv e) : ParamInv (updateSpread e price) := by
  obtain ⟨a1, a2, a3, a4, a5, a6⟩ := hpar
  simp only [updateSpread]
  split_ifs with h1 h2 h3 h4 h5 <;>
    refine ⟨by simpa using a1, by simpa using a2, by simpa using a3,
      ?_, ?_, by simpa using a6⟩ <;>
    (try dsimp only) <;>
    first
      | exact a4
      | exact a5
      | (norm_num; done)
      | (linarith [not_lt.mp h4])
      | (linarith [not_lt.mp h5])
      | (have hdn : (0:ℚ) ≤ |price - e.prevPrice| / e.prevPrice :=
           div_nonneg (abs_nonneg _) (le_of_lt (by assumption));
         linarith)

lemma markBlocked_PendingInv (e : Exchange) (bar : OHLCBar)
    (h : PendingInv e.pending) :
    PendingInv ((markBlocked e bar).pending) := by
  unfold markBlocked
  rcases hp : e.pending with _ | ⟨hd, tl⟩
  · intro x hx
    exact h x hx
  · intro x hx
    simp only [List.mem_cons] at hx
    rcases hx with hx | hx
    · exact h x (by rw [hp, hx]; exact List.mem_cons_self hd tl)
    · obtain ⟨y, hy, rfl⟩ := List.mem_map.mp hx
      have hyp := h y (by rw [hp]; exact List.mem_cons_of_mem hd hy)
      split_ifs
      · simpa using hyp
      · exact hyp

lemma LongLimit_ok_C10 {e : Exchange} {price fr : ℚ} {id : ℤ}
    {e' : Exchange} (h : LongLimit e price fr = .ok (id, e'))
    (hm : MoneyInv e) (hpar : ParamInv e) (hq : PendingInv e.pending) :
    MoneyInv e' ∧ ParamInv e' ∧ PendingInv e'.pending := by
  simp only [LongLimit] at h
  split_ifs at h <;> try exact Except.noConfusion h
  all_goals
    rw [Except.ok.injEq] at h
    have h9 := (congrArg Prod.snd h).symm
  all_goals subst h9
  all_goals
    refine ⟨⟨by simpa using hm.1, by simpa using hm.2.1,
        by simpa using hm.2.2⟩,
      ⟨by simpa using hpar.1, by simpa using hpar.2.1,
        by simpa using hpar.2.2.1, by simpa using hpar.2.2.2.1,
        by simpa using hpar.2.2.2.2.1, by simpa using hpar.2.2.2.2.2⟩, ?_⟩
  all_goals
    intro x hx
    simp only [List.mem_append, List.mem_singleton] at hx
    rcases hx with hx2 | hx2
    · exact hq x hx2
    · subst hx2
      exact not_le.mp (by assumption)

lemma ShortLimit_ok_C10 {e : Exchange} {price fr : ℚ} {id : ℤ}
    {e' : Exchange} (h : ShortLimit e price fr = .ok (id, e'))
    (hm : MoneyInv e) (hpar : ParamInv e) (hq : PendingInv e.pending) :
    MoneyInv e' ∧ ParamInv e' ∧ PendingInv e'.pending := by
  simp only [ShortLimit] at h
  split_ifs at h <;> try exact Except.noConfusion h
  all_goals
    rw [Except.ok.injEq] at h
    have h9 := (congrArg Prod.snd h).symm
  all_goals subst h9
  all_goals
    refine ⟨⟨by simpa using hm.1, by simpa using hm.2.1,
        by simpa using hm.2.2⟩,
      ⟨by simpa using hpar.1, by simpa using hpar.2.1,
        by simpa using hpar.2.2.1, by simpa using hpar.2.2.2.1,
        by simpa using hpar.2.2.2.2.1, by simpa using hpar.2.2.2.2.2⟩, ?_⟩
  all_goals
    intro x hx
    simp only [List.mem_append, List.mem_singleton] at hx
    rcases hx with hx2 | hx2
    · exact hq x hx2
    · subst hx2
      exact not_le.mp (by assumption)

lemma CloseLimit_ok_C10 {e : Exchange} {price : ℚ} {reason sk : String}
    {id : ℤ} {e' : Exchange}
    (h : CloseLimit e price reason sk = .ok (id, e'))
    (hm : MoneyInv e) (hpar : ParamInv e) (hq : PendingInv e.pending) :
    MoneyInv e' ∧ ParamInv e' ∧ PendingInv e'.pending := by
  simp only [CloseLimit] at h
  split_ifs at h <;> try exact Except.noConfusion h
  all_goals
    rw [Except.ok.injEq] at h
    have h9 := (congrArg Prod.snd h).symm
  all_goals subst h9
  all_goals
    refine ⟨⟨by simpa using hm.1, by simpa using hm.2.1,
        by simpa using hm.2.2⟩,
      ⟨by simpa using hpar.1, by simpa using hpar.2.1,
        by simpa using hpar.2.2.1, by simpa using hpar.2.2.2.1,
        by simpa using hpar.2.2.2.2.1, by simpa using hpar.2.2.2.2.2⟩, ?_⟩
  all_goals
    intro x hx
    simp only [List.mem_append, List.mem_singleton] at hx
    rcases hx with hx2 | hx2
    · exact hq x hx2
    · subst hx2
      exact not_le.mp (by assumption)

end Emul

namespace Emul

lemma markBlocked_C10 {e : Exchange} (bar : OHLCBar) (h : C10Inv e) :
    C10Inv (markBlocked e bar) := by
  obtain ⟨⟨m1, m2, m3⟩, ⟨p1, p2, p3, p4, p5, p6⟩, hq⟩ := h
  refine ⟨⟨by simpa using m1, by simpa using m2, by simpa using m3⟩,
    ⟨by simpa using p1, by simpa using p2, by simpa using p3,
      by simpa using p4, by simpa using p5, ?_⟩,
    markBlocked_PendingInv e bar hq⟩
  intro hx
  rw [markBlocked_fee]
  exact p6 (by simpa using hx)

lemma drainLoop_C10 (bar : OHLCBar) (q : List pendingOrder) :
    ∀ (e : Exchange) (fe : Option Order),
      MoneyInv e → ParamInv e → PendingInv q →
      MoneyInv (drainLoop bar q e fe).1 ∧
      ParamInv (drainLoop bar q e fe).1 ∧
      PendingInv ((drainLoop bar q e fe).1).pending := by
  induction q with
  | nil =>
    intro e fe hm hpar hq
    refine ⟨hm, hpar, ?_⟩
    intro x hx
    rw [drainLoop] at hx
    simp at hx
  | cons p rest ih =>
    intro e fe hm hpar hq
    have hqp : 0 < p.price := hq p (List.mem_cons_self p rest)
    have hqr : PendingInv rest := fun x hx => hq x (List.mem_cons_of_mem p hx)
    rw [drainLoop]
    by_cases h1 : e.tick ≤ p.placedAtTick
    · rw [if_pos h1]
      exact ⟨hm, hpar, hq⟩
    · rw [if_neg h1]
      by_cases h2 : priceInRange p.price bar.Low bar.High = true
      · rw [if_pos h2]
        rcases hk : p.kind with _ | _ | _
        · simp only [hk]
          by_cases h3 : e.position ≠ 0
          · rw [if_pos h3]
            exact ih _ fe hm hpar hqr
          · rw [if_neg h3]
            rcases hop : openLongAtPrice e p.price p.fraction p.placedAtTick
              with err | ⟨o1, e1⟩
            · exact ih _ fe hm hpar hqr
            · obtain ⟨hm1, hp1, -⟩ := openLongAtPrice_C10 hop hm hpar
              exact ih _ _ hm1 hp1 hqr
        · simp only [hk]
          by_cases h3 : e.position ≠ 0
          · rw [if_pos h3]
            exact ih _ fe hm hpar hqr
          · rw [if_neg h3]
            rcases hop : openShortAtPrice e p.price p.fraction p.placedAtTick
              with err | ⟨o1, e1⟩
            · exact ih _ fe hm hpar hqr
            · obtain ⟨hm1, hp1, -⟩ := openShortAtPrice_C10 hop hm hpar
              exact ih _ _ hm1 hp1 hqr
        · simp only [hk]
          by_cases h3 : e.position = 0
          · rw [if_pos h3]
            exact ih _ fe hm hpar hqr
          · rw [if_neg h3]
            have hmc :=
              closeAtPrice_C10money e p.price p.reason p.stopKind hm hpar hqp
            obtain ⟨hpc, -⟩ :=
              closeAtPrice_C10param e p.price p.reason p.stopKind hpar
            exact ih _ _ hmc hpc hqr
      · rw [if_neg h2]
        refine ⟨hm, hpar, ?_⟩
        intro x hx
        have hx2 : x = { p with lastReason := "price_not_in_hl" } ∨
            x ∈ rest := by
          simpa using hx
        rcases hx2 with hx1 | hx1
        · rw [hx1]
          simpa using hqp
        · exact hqr x hx1

lemma processPending_C10 (e : Exchange) (bar : OHLCBar) (h : C10Inv e) :
    C10Inv (processPending e bar).1 := by
  simp only [processPending]
  split_ifs with h1
  · exact h
  · obtain ⟨hm, hpar, hq⟩ := h
    obtain ⟨hm2, hp2, hq2⟩ := drainLoop_C10 bar e.pending e none hm hpar hq
    exact markBlocked_C10 bar ⟨hm2, hp2, hq2⟩

lemma tickBarAt_ok_C10 {e : Exchange} {sym : String} {tick : ℤ}
    {bar : OHLCBar} {ex' : Exchange} {res : Option Order}
    (h : tickBarAt e sym tick bar = .ok (ex', res))
    (hInv : C10Inv e) : C10Inv ex' := by
  simp only [tickBarAt] at h
  split_ifs at h with h1 h2 h3 <;> try exact Except.noConfusion h
  all_goals
    rw [Except.ok.injEq] at h
    injection h with ha hb
    rw [← ha]
    (try dsimp only)
    refine processPending_C10 _ bar ⟨⟨?_, ?_, ?_⟩, ?_, ?_⟩
    · simpa using hInv.1.1
    · simpa using hInv.1.2.1
    · simpa using hInv.1.2.2
    · exact updateSpread_C10param _ hInv.2.1
    · intro x hx
      exact hInv.2.2 x (by simpa using hx)

lemma CloseDeal_ok_lastPrice {e : Exchange} {reason : String} {o : Order}
    {e' : Exchange} (h : CloseDeal e reason = .ok (o, e')) :
    0 < e.lastPrice := by
  simp only [CloseDeal] at h
  split_ifs at h with h1 h2 h3 <;> try exact Except.noConfusion h
  all_goals exact not_le.mp h2

lemma CloseDeal_ok_C10 {e : Exchange} {reason : String} {o : Order}
    {e' : Exchange} (h : CloseDeal e reason = .ok (o, e'))
    (hInv : C10Inv e) : C10Inv e' := by
  have hlp := CloseDeal_ok_lastPrice h
  have hst := CloseDeal_ok_state h
  subst hst
  obtain ⟨hm, hpar, hq⟩ := hInv
  obtain ⟨hpc, hpend⟩ := closeAtPrice_C10param e e.lastPrice _ "" hpar
  refine ⟨closeAtPrice_C10money e e.lastPrice _ "" hm hpar hlp, hpc, ?_⟩
  rw [hpend]
  exact hq

end Emul

namespace Emul

/-- C10: `NewExchange` establishes — and every public operation (market
and limit opens and closes, limit placement) and every `tickBarAt`
preserves — the invariant `C10Inv`, whose monetary part `MoneyInv` says
that `usd`, `shortCash` and `shortMargin` are each non-negative
(errors leave the state unchanged). -/
theorem C10_nonnegative_balances :
    (∀ symbol startUSD fee slippagePct spreadPct,
      C10Inv (NewExchange symbol startUSD fee slippagePct spreadPct)) ∧
    (∀ e fr, C10Inv e → C10Inv (afterE (OpenLong e fr) e)) ∧
    (∀ e fr, C10Inv e → C10Inv (afterE (OpenShort e fr) e)) ∧
    (∀ e price fr, C10Inv e → C10Inv (afterE (LongLimit e price fr) e)) ∧
    (∀ e price fr, C10Inv e → C10Inv (afterE (ShortLimit e price fr) e)) ∧
    (∀ e price reason sk,
      C10Inv e → C10Inv (afterE (CloseLimit e price reason sk) e)) ∧
    (∀ e price fr, C10Inv e → C10Inv (afterS (OpenLongLimit e price fr) e)) ∧
    (∀ e price fr, C10Inv e → C10Inv (afterS (OpenShortLimit e price fr) e)) ∧
    (∀ e price reason sk,
      C10Inv e → C10Inv (afterS (CloseDealLimit e price reason sk) e)) ∧
    (∀ e reason, C10Inv e → C10Inv (afterE (CloseDeal e reason) e)) ∧
    (∀ e sym tick bar,
      C10Inv e → C10Inv (afterT (tickBarAt e sym tick bar) e)) := by
  refine ⟨?_, ?_, ?_, ?_, ?_, ?_, ?_, ?_, ?_, ?_, ?_⟩
  · intro sym u f sl sp
    exact NewExchange_C10 sym u f sl sp
  · intro e fr hInv
    rcases hr : OpenLong e fr with err | ⟨o, e'⟩
    · exact hInv
    · have hr' : openLongAtPrice e e.lastPrice fr e.tick = .ok (o, e') := hr
      obtain ⟨hm1, hp1, hpend⟩ := openLongAtPrice_C10 hr' hInv.1 hInv.2.1
      refine ⟨hm1, hp1, ?_⟩
      show PendingInv e'.pending
      rw [hpend]
      exact hInv.2.2
  · intro e fr hInv
    rcases hr : OpenShort e fr with err | ⟨o, e'⟩
    · exact hInv
    · have hr' : openShortAtPrice e e.lastPrice fr e.tick = .ok (o, e') := hr
      obtain ⟨hm1, hp1, hpend⟩ := openShortAtPrice_C10 hr' hInv.1 hInv.2.1
      refine ⟨hm1, hp1, ?_⟩
      show PendingInv e'.pending
      rw [hpend]
      exact hInv.2.2
  · intro e price fr hInv
    rcases hr : LongLimit e price fr with err | ⟨id, e'⟩
    · exact hInv
    · obtain ⟨hm1, hp1, hq1⟩ := LongLimit_ok_C10 hr hInv.1 hInv.2.1 hInv.2.2
      exact ⟨hm1, hp1, hq1⟩
  · intro e price fr hInv
    rcases hr : ShortLimit e price fr with err | ⟨id, e'⟩
    · exact hInv
    · obtain ⟨hm1, hp1, hq1⟩ := ShortLimit_ok_C10 hr hInv.1 hInv.2.1 hInv.2.2
      exact ⟨hm1, hp1, hq1⟩
  · intro e price reason sk hInv
    rcases hr : CloseLimit e price reason sk with err | ⟨id, e'⟩
    · exact hInv
    · obtain ⟨hm1, hp1, hq1⟩ := CloseLimit_ok_C10 hr hInv.1 hInv.2.1 hInv.2.2
      exact ⟨hm1, hp1, hq1⟩
  · intro e price fr hInv
    simp only [OpenLongLimit]
    rcases hr : LongLimit e price fr with err | ⟨id, e'⟩
    · exact hInv
    · obtain ⟨hm1, hp1, hq1⟩ := LongLimit_ok_C10 hr hInv.1 hInv.2.1 hInv.2.2
      exact ⟨hm1, hp1, hq1⟩
  · intro e price fr hInv
    simp only [OpenShortLimit]
    rcases hr : ShortLimit e price fr with err | ⟨id, e'⟩
    · exact hInv
    · obtain ⟨hm1, hp1, hq1⟩ := ShortLimit_ok_C10 hr hInv.1 hInv.2.1 hInv.2.2
      exact ⟨hm1, hp1, hq1⟩
  · intro e price reason sk hInv
    simp only [CloseDealLimit]
    rcases hr : CloseLimit e price reason sk with err | ⟨id, e'⟩
    · exact hInv
    · obtain ⟨hm1, hp1, hq1⟩ := CloseLimit_ok_C10 hr hInv.1 hInv.2.1 hInv.2.2
      exact ⟨hm1, hp1, hq1⟩
  · intro e reason hInv
    rcases hr : CloseDeal e reason with err | ⟨o, e'⟩
    · exact hInv
    · exact CloseDeal_ok_C10 hr hInv
  · intro e sym tick bar hInv
    rcases hr : tickBarAt e sym tick bar with err | ⟨ex', res⟩
    · exact hInv
    · exact tickBarAt_ok_C10 hr hInv

/-- Flat exchange for the C10 witness. -/
def C10ex : Exchange :=
  { symbol := "btc", fee := 0, slippagePct := 0, spreadPct := 0,
    spreadManual := true, prevPrice := 0, usd := 1000, position := 0,
    entryPrice := 0, shortCash := 0, shortMargin := 0, lastPrice := 10,
    tick := 1, orders := [], nextID := 0, nextLimitID := 0, pending := [],
    executedByID := fun _ => none, limitFailed := fun _ => 0, misses := [],
    lastBar := default, hasLastBar := true }

/-- Witness for C10: the invariant holds after a concrete market short. -/
theorem C10_nonnegative_balances_witness :
    C10Inv (afterE (OpenShort C10ex (1 : ℚ)) C10ex) :=
  C10_nonnegative_balances.2.2.1 C10ex 1 (by decide)

end Emul
